import Mathlib

/-!
Shallow embedding of the DAOS VOS object-layer code (`vos/vos_obj.c`) together
with the declarations it relies on (`daos_srv/bio.h`), with proofs of the
behavioural properties of punch, iteration, attribute handling and hole
copying.  Pure control flow is translated function-by-function from the C
source; collaborator routines that live outside the given sources
(`dbtree`/`evtree` probes, `key_tree_prepare`, `vos_oi_punch`,
`vos_obj_hold`) are modelled from the specification and marked as such in
their doc comments.
-/

namespace VosObj

/-- Epochs are unsigned 64-bit timestamps; we carry them as `Nat` and use the
sentinel below where the C code uses `DAOS_EPOCH_MAX` (`~0ULL`). -/
abbrev Epoch := Nat

/-- Here `DAOS_EPOCH_MAX = ~0ULL`, the "unbounded future" sentinel. -/
def DAOS_EPOCH_MAX : Epoch := 2 ^ 64 - 1

/-- The DAOS error classes returned by the embedded functions
(`-DER_NONEXIST`, `-DER_INVAL`, ...). -/
inductive DerErr where
  | NONEXIST
  | INVAL
  | NOMEM
  | NO_HDL
  | OVERFLOW
  | INPROGRESS
deriving DecidableEq, Repr

/-- An inclusive epoch range, `daos_epoch_range_t`. -/
structure EpochRange where
  lo : Epoch
  hi : Epoch
deriving DecidableEq, Repr

/-- The five single-value epoch expressions, `vos_it_epc_expr_t`. -/
inductive EpcExpr where
  | EQ
  | RE
  | RR
  | GE
  | LE
deriving DecidableEq, Repr

/-! ### Single-value epoch-expression iterator (`singv_iter_*`)

The single-value subtree of an akey is a btree keyed by epoch.  The btree
code itself is not among the sources, so its probe primitives are modelled
from the specification; the iterator logic on top of them is translated from
`singv_iter_probe_epr`, `singv_iter_probe` and `singv_iter_next` in
`vos_obj.c`. -/

/-- Modelled from the spec: `dbtree_iter_probe(BTR_PROBE_FIRST)` on a
single-value tree positions at the smallest epoch present.  We represent the
tree as the list of epochs that hold committed values. -/
def btrProbeFirst (es : List Epoch) : Option Epoch :=
  es.foldr (fun e acc => match acc with
    | none => some e
    | some m => some (min e m)) none

/-- Modelled from the spec: `dbtree_iter_probe(BTR_PROBE_LAST)` positions at
the greatest epoch present. -/
def btrProbeLast (es : List Epoch) : Option Epoch :=
  es.foldr (fun e acc => match acc with
    | none => some e
    | some m => some (max e m)) none

/-- Modelled from the spec: `BTR_PROBE_GE` at epoch `e` positions at the
smallest epoch `≥ e`. -/
def btrProbeGE (es : List Epoch) (e : Epoch) : Option Epoch :=
  btrProbeFirst (es.filter (fun x => e ≤ x))

/-- Modelled from the spec: `BTR_PROBE_LE` at epoch `e` positions at the
greatest epoch `≤ e`. -/
def btrProbeLE (es : List Epoch) (e : Epoch) : Option Epoch :=
  btrProbeLast (es.filter (fun x => x ≤ e))

/-- Modelled from the spec: `BTR_PROBE_EQ` at epoch `e` succeeds only on an
exact match. -/
def btrProbeEQ (es : List Epoch) (e : Epoch) : Option Epoch :=
  if e ∈ es then some e else none

/-- Here `singv_iter_probe_epr`: starting from the fetched epoch `e`, keep
re-probing (`singv_iter_probe_fetch`) until the cursor satisfies the epoch
expression or runs out of candidates.  The C loop always terminates within
two rounds; we make this explicit with fuel and return `none` on exhaustion
(proved unreachable for fuel ≥ 2 at the call sites). -/
def singvIterProbeEpr : Nat → EpcExpr → EpochRange → List Epoch → Epoch →
    Option (Except DerErr Epoch)
  | 0, _, _, _, _ => none
  | fuel + 1, expr, epr, es, e =>
    match expr with
    | .EQ =>
      if e > epr.hi then some (.error .NONEXIST)
      else if e < epr.lo then
        match btrProbeEQ es epr.lo with
        | none => some (.error .NONEXIST)
        | some e2 => singvIterProbeEpr fuel .EQ epr es e2
      else some (.ok e)
    | .RE =>
      if e > epr.hi then some (.error .NONEXIST)
      else if e < epr.lo then
        match btrProbeGE es epr.lo with
        | none => some (.error .NONEXIST)
        | some e2 => singvIterProbeEpr fuel .RE epr es e2
      else some (.ok e)
    | .RR =>
      if e < epr.lo then some (.error .NONEXIST)
      else if e > epr.hi then
        match btrProbeLE es epr.hi with
        | none => some (.error .NONEXIST)
        | some e2 => singvIterProbeEpr fuel .RR epr es e2
      else some (.ok e)
    | .GE =>
      if e < epr.lo then
        match btrProbeGE es epr.lo with
        | none => some (.error .NONEXIST)
        | some e2 => singvIterProbeEpr fuel .GE epr es e2
      else some (.ok e)
    | .LE =>
      if e > epr.lo then
        match btrProbeLE es epr.lo with
        | none => some (.error .NONEXIST)
        | some e2 => singvIterProbeEpr fuel .LE epr es e2
      else some (.ok e)

/-- Here `singv_iter_probe` without an anchor: probe `LAST` for `RR`, else
`FIRST`, fetch, then run `singv_iter_probe_epr`. -/
def singvIterProbe (expr : EpcExpr) (epr : EpochRange) (es : List Epoch) :
    Except DerErr Epoch :=
  let first := match expr with
    | .RR => btrProbeLast es
    | _ => btrProbeFirst es
  match first with
  | none => .error .NONEXIST
  | some e => (singvIterProbeEpr 2 expr epr es e).getD (.error .NONEXIST)

/-- Here `singv_iter_next`: from the current cursor epoch, advance by `±1` for
`RE`/`RR` (modular 64-bit arithmetic as in the C code) or jump to
`DAOS_EPOCH_MAX`, probe `GE` (`LE` for `RR`), then re-run
`singv_iter_probe_epr`. -/
def singvIterNext (expr : EpcExpr) (epr : EpochRange) (es : List Epoch)
    (cur : Epoch) : Except DerErr Epoch :=
  match (match expr with
    | .RE => btrProbeGE es ((cur + 1) % 2 ^ 64)
    | .RR => btrProbeLE es ((cur + (2 ^ 64 - 1)) % 2 ^ 64)
    | _ => btrProbeGE es DAOS_EPOCH_MAX) with
  | none => .error .NONEXIST
  | some e => (singvIterProbeEpr 2 expr epr es e).getD (.error .NONEXIST)

/-- The epoch window each expression accepts (read off from the checks in
`singv_iter_probe_epr`). -/
def epcExprInRange (expr : EpcExpr) (epr : EpochRange) (e : Epoch) : Prop :=
  match expr with
  | .EQ => epr.lo ≤ e ∧ e ≤ epr.hi
  | .RE => epr.lo ≤ e ∧ e ≤ epr.hi
  | .RR => epr.lo ≤ e ∧ e ≤ epr.hi
  | .GE => epr.lo ≤ e
  | .LE => e ≤ epr.lo

instance (expr : EpcExpr) (epr : EpochRange) (e : Epoch) :
    Decidable (epcExprInRange expr epr e) := by
  unfold epcExprInRange
  cases expr <;> infer_instance

/-! ### Key trees, punch and the key iterator (`key_punch`, `key_iter_*`)

A dkey/akey btree record is a `vos_krec_df`: earliest/latest epochs, the
`KREC_BF_PUNCHED` bit, and an attached subtree.  Keys are abstracted to
naturals (the byte-string comparator is irrelevant to the claims). -/

/-- Here `vos_krec_df`: the persistent record attached to a dkey or akey,
parameterised by the type of its subtree. -/
structure KeyRec (α : Type) where
  earliest : Epoch
  latest : Epoch
  punched : Bool
  subtree : α
deriving DecidableEq, Repr

/-- One record of a key btree: the key, the epoch component of its btree key
and the attached `vos_krec_df`. -/
structure TreeEnt (α : Type) where
  key : Nat
  kepoch : Epoch
  krec : KeyRec α
deriving DecidableEq, Repr

/-- A single value subtree is the list of epochs holding committed values. -/
abbrev ValT := List Epoch

/-- An akey btree entry (its subtree holds the value epochs). -/
abbrev AkEnt := TreeEnt ValT

/-- A dkey btree entry (its subtree is the akey tree). -/
abbrev DkEnt := TreeEnt (List AkEnt)

/-- Look a key up in a key btree (first record with this key). -/
def lookupKey {α : Type} (l : List (TreeEnt α)) (k : Nat) : Option (KeyRec α) :=
  (l.find? (fun t => t.key == k)).map (fun t => t.krec)

/-- Modelled from the spec: the §4.8 visibility rule for a reader at epoch
`E` against a record with `(earliest, latest)` and the `PUNCHED` bit —
skip when `earliest > E` (not yet created) or when the record is a tombstone
at `latest ≤ E`. -/
def recVisibleAt {α : Type} (r : KeyRec α) (E : Epoch) : Bool :=
  decide (r.earliest ≤ E) && !(r.punched && decide (r.latest ≤ E))

/-- Modelled from the spec: `key_tree_punch` writes a tombstone for key `k`
at epoch `e` — the record carries `BF_PUNCHED` and its `latest` epoch is
advanced to `e`; a missing key gets a fresh tombstone record.  The attached
subtree is not touched. -/
def keyTreePunch {α : Type} (e : Epoch) (k : Nat) (empty : α)
    (l : List (TreeEnt α)) : List (TreeEnt α) :=
  if l.any (fun t => t.key == k) then
    l.map (fun t =>
      if t.key == k then
        { t with krec := { t.krec with
                           punched := true
                           latest := max t.krec.latest e } }
      else t)
  else l ++ [⟨k, e, ⟨e, e, true, empty⟩⟩]

/-- Modelled from the spec: `key_tree_prepare(SUBTR_CREATE)` at epoch `e` —
loads the subtree of key `k`, creating the key when absent; a key whose
record is a visible tombstone at `e` reports `NONEXIST`.  Returns the
(possibly extended) tree. -/
def keyTreePrepare (e : Epoch) (k : Nat) (l : List DkEnt) :
    Except DerErr (List DkEnt) :=
  match lookupKey l k with
  | some r =>
    if r.punched && decide (r.latest ≤ e) then .error .NONEXIST
    else .ok l
  | none => .ok (l ++ [⟨k, e, ⟨e, e, false, []⟩⟩])

/-- Update the akey subtree of dkey `dk` in place. -/
def updateSubtree (dk : Nat) (f : List AkEnt → List AkEnt)
    (l : List DkEnt) : List DkEnt :=
  l.map (fun t => if t.key == dk then
    { t with krec := { t.krec with subtree := f t.krec.subtree } } else t)

/-- Here `key_punch` (vos_obj.c): with no akeys, punch the dkey itself in the
object's dkey tree; with akeys, prepare the dkey subtree with
`DAOS_INTENT_PUNCH` — treating `NONEXIST` (a punched dkey) as success with
nothing to do — and punch every listed akey in it.  Returns the new dkey
tree alongside the return code. -/
def key_punch (e : Epoch) (t : List DkEnt) (dk : Nat) (akeys : List Nat) :
    Except DerErr Unit × List DkEnt :=
  match akeys with
  | [] => (.ok (), keyTreePunch e dk [] t)
  | _ :: _ =>
    match keyTreePrepare e dk t with
    | .error .NONEXIST => (.ok (), t)
    | .error er => (.error er, t)
    | .ok t1 =>
      (.ok (), updateSubtree dk
        (fun sub => akeys.foldl (fun s a => keyTreePunch e a [] s) sub) t1)

/-! ### Key-iterator matching (`key_iter_fetch`, `key_iter_match`,
`key_iter_match_probe`) -/

/-- The part of `vos_iter_entry_t` filled by `key_iter_fetch`: the reported
epoch is `kr_latest` for a punched key and `DAOS_EPOCH_MAX` otherwise. -/
structure KIterEnt where
  key : Nat
  epoch : Epoch
  earliest : Epoch
deriving DecidableEq, Repr

/-- Here `key_iter_fetch`: build the iterator entry from a key record. -/
def key_iter_fetch {α : Type} (t : TreeEnt α) : KIterEnt :=
  { key := t.key
    epoch := if t.krec.punched then t.krec.latest else DAOS_EPOCH_MAX
    earliest := t.krec.earliest }

/-- The outcome of `key_iter_match`: accept (`IT_OPC_NOOP`), advance to the
next record (`IT_OPC_NEXT`), re-probe with `BTR_PROBE_GT` at the returned
epoch (`IT_OPC_PROBE`), or fail. -/
inductive ItOpc where
  | NOOP
  | NEXT
  | PROBE (epoch : Epoch)
  | ERR (e : DerErr)
deriving DecidableEq, Repr

/-- Modelled from the spec: the conditional-akey existence check of
`key_iter_match` — `dbtree_fetch(BTR_PROBE_GT | BTR_PROBE_MATCHED)` on the
loaded akey tree succeeds exactly when the named akey has a record visible
at the condition epoch. -/
def akeyExistsAt (sub : List AkEnt) (ak : Nat) (e : Epoch) : Bool :=
  match lookupKey sub ak with
  | some r => recVisibleAt r e
  | none => false

/-- Modelled from the spec: `key_tree_prepare` without `SUBTR_CREATE` on an
already-fetched key record at epoch `ep` — loads the attached subtree, and
reports `NONEXIST` when the record is a visible tombstone at `ep` (the same
tombstone rule as the dkey-level `keyTreePrepare`). -/
def krecPrepare {α : Type} (ep : Epoch) (r : KeyRec α) : Except DerErr α :=
  if r.punched && decide (r.latest ≤ ep) then .error .NONEXIST
  else .ok r.subtree

/-- Here `key_iter_match`: epoch-range filtering of the current entry, then
(for a dkey iterator with a conditional akey, which requires
`epr.lo = epr.hi` and otherwise fails with `INVAL`) the akey subtree is
loaded at the entry's reported epoch — any error aborts the probe, exactly
as `key_tree_prepare`'s return code is propagated in the source — before
the akey-existence check decides accept or skip. -/
def key_iter_match (isAkeyIter : Bool) (condAkey : Option Nat)
    (epr : EpochRange) (t : DkEnt) : ItOpc :=
  let ent := key_iter_fetch t
  if ent.earliest > epr.hi then .PROBE DAOS_EPOCH_MAX
  else if ent.epoch ≤ epr.lo then .PROBE epr.lo
  else match condAkey with
    | none => .NOOP
    | some ak =>
      if isAkeyIter then .NOOP
      else if epr.lo ≠ epr.hi then .ERR .INVAL
      else match krecPrepare ent.epoch t.krec with
        | .error er => .ERR er
        | .ok sub =>
          if akeyExistsAt sub ak epr.lo then .NOOP
          else .NEXT

/-- Modelled from the spec: `dbtree_iter_probe(BTR_PROBE_GT)` at `(k, e)` —
the cursor moves to the first record past `(k, e)` in tree order (key bytes,
then epoch ascending). -/
def btreeProbeGT (k : Nat) (e : Epoch) (l : List DkEnt) : List DkEnt :=
  l.dropWhile (fun t => t.key < k || (t.key == k && decide (t.kepoch ≤ e)))

/-- Here `key_iter_match_probe`: loop `key_iter_match` over the cursor, probing
`GT` or stepping to the next record until an entry is accepted or the tree
is exhausted (`NONEXIST`).  The cursor is the suffix of records at or after
the current position; fuel makes the loop structurally terminating. -/
def key_iter_match_probe (isAkeyIter : Bool) (condAkey : Option Nat)
    (epr : EpochRange) : Nat → List DkEnt → Option (Except DerErr DkEnt)
  | 0, _ => none
  | _ + 1, [] => some (.error .NONEXIST)
  | fuel + 1, cur :: rest =>
    match key_iter_match isAkeyIter condAkey epr cur with
    | .NOOP => some (.ok cur)
    | .NEXT => key_iter_match_probe isAkeyIter condAkey epr fuel rest
    | .PROBE pe => key_iter_match_probe isAkeyIter condAkey epr fuel
        (btreeProbeGT cur.key pe (cur :: rest))
    | .ERR er => some (.error er)

/-- The predicate every accepted key entry satisfies (read off from the
accepting branch of `key_iter_match`): created no later than `epr.hi` and
not punched at or before `epr.lo`. -/
def keyMatches {α : Type} (epr : EpochRange) (t : TreeEnt α) : Prop :=
  t.krec.earliest ≤ epr.hi ∧
    epr.lo < (if t.krec.punched then t.krec.latest else DAOS_EPOCH_MAX)

instance {α : Type} (epr : EpochRange) (t : TreeEnt α) :
    Decidable (keyMatches epr t) := by
  unfold keyMatches
  infer_instance

/-! ### Readers over a dkey tree

These express "what a reader or iterator at epoch `E` observes": a full key
iteration applies the accept predicate of `key_iter_match` to every record,
the akey iterator prepares the parent dkey subtree at `epr.lo`
(`akey_iter_prepare`), and a point fetch walks dkey then akey under the §4.8
visibility rule. -/

/-- The keys a full dkey/akey iteration at range `epr` yields, i.e. those
records accepted by `key_iter_match`. -/
def visibleKeys {α : Type} (epr : EpochRange) (l : List (TreeEnt α)) :
    List Nat :=
  (l.filter (fun t => decide (keyMatches epr t))).map (fun t => t.key)

/-- Here `akey_iter_prepare`: load the akey subtree of `dk` by preparing the dkey
tree at `epr.lo` (the subtree-load reports `NONEXIST` for an invisible
key per the modelled `key_tree_prepare` without `SUBTR_CREATE`). -/
def akeyIterPrepare (epr : EpochRange) (l : List DkEnt) (dk : Nat) :
    Except DerErr (List AkEnt) :=
  match lookupKey l dk with
  | none => .error .NONEXIST
  | some r => if recVisibleAt r epr.lo then .ok r.subtree
              else .error .NONEXIST

/-- A point fetch of the single-value/extent payload under `(dk, ak)` at
reader epoch `E`: both key levels must be visible at `E`, else the reader
sees nothing (`none`). -/
def fetchValues (E : Epoch) (l : List DkEnt) (dk ak : Nat) : Option ValT :=
  match lookupKey l dk with
  | none => none
  | some r =>
    if recVisibleAt r E then
      match lookupKey r.subtree ak with
      | none => none
      | some ra => if recVisibleAt ra E then some ra.subtree else none
    else none

/-! ### Object-level state: OI attributes, punch, cache
(`vos_obj_punch`, `obj_punch`, `vos_oi_set_attr/clear_attr/get_attr`) -/

/-- Modelled from the spec: the `VOS_OI_PUNCHED` attribute bit (the layout
header carrying the numeric value is not among the sources; only
distinctness from the other bits matters). -/
def VOS_OI_PUNCHED : Nat := 1

/-- Modelled from the spec: the `VOS_OI_REMOVED` attribute bit. -/
def VOS_OI_REMOVED : Nat := 2

/-- The persistent object record (`vos_obj_df`): its OI attribute bits
(`vo_oi_attr`), the OI tombstone epoch written by `vos_oi_punch`, and the
dkey tree. -/
structure ObjRec where
  oiAttr : Nat
  oiPunched : Option Epoch
  tree : List DkEnt
deriving DecidableEq, Repr

/-- A fresh object record, as allocated on first write. -/
def ObjRec.empty : ObjRec := ⟨0, none, []⟩

/-- Per-container VOS state: the object index plus the object handle cache
(the set of hydrated object ids). -/
structure VosState where
  objs : List (Nat × ObjRec)
  cache : List Nat
deriving DecidableEq, Repr

/-- Look up the persistent record of object `oid`. -/
def VosState.lookup (st : VosState) (oid : Nat) : Option ObjRec :=
  (st.objs.find? (fun p => p.1 == oid)).map Prod.snd

/-- Replace (or create) the record of `oid`. -/
def VosState.setObj (st : VosState) (oid : Nat) (r : ObjRec) : VosState :=
  if st.objs.any (fun p => p.1 == oid) then
    { st with objs := st.objs.map (fun p => if p.1 == oid then (oid, r) else p) }
  else { st with objs := st.objs ++ [(oid, r)] }

/-- Modelled from the spec: `vos_obj_hold` with `no_create = false`
(`create=true`) returns the writable object record, allocating it when
absent. -/
def holdCreate (st : VosState) (oid : Nat) : ObjRec × VosState :=
  match st.lookup oid with
  | some r => (r, { st with cache := if oid ∈ st.cache then st.cache
                                     else oid :: st.cache })
  | none => (ObjRec.empty,
             { (st.setObj oid ObjRec.empty) with cache := oid :: st.cache })

/-- Modelled from the spec: `vos_obj_hold` with `no_create = true` succeeds
even for an object with no persistent record, handing back an empty object
whose `obj_df` is `NULL` (the callers in `vos_obj.c` test
`obj->obj_df == NULL` / `vos_obj_is_empty`). -/
def holdNoCreate (st : VosState) (oid : Nat) : Option ObjRec :=
  st.lookup oid

/-- Modelled from the spec: `vos_oi_punch` marks the object tombstoned at
`epoch`, so that later reads at `E ≥ epoch` observe an empty object. -/
def vosOiPunch (st : VosState) (oid : Nat) (e : Epoch) : VosState :=
  match st.lookup oid with
  | some r => st.setObj oid { r with oiPunched := some e }
  | none => st.setObj oid { ObjRec.empty with oiPunched := some e }

/-- Modelled from the spec: `vos_obj_evict` drops the object from the handle
cache so a later fetch rehydrates the new (empty) incarnation. -/
def vosObjEvict (st : VosState) (oid : Nat) : VosState :=
  { st with cache := st.cache.filter (fun o => o ≠ oid) }

/-- Here `obj_punch` (vos_obj.c): OI-punch the object at `epoch`, then evict it
from the cache; on OI-punch failure nothing is evicted. -/
def obj_punch (st : VosState) (oid : Nat) (e : Epoch) :
    Except DerErr Unit × VosState :=
  (.ok (), vosObjEvict (vosOiPunch st oid e) oid)

/-- Here `vos_obj_punch` (vos_obj.c): hold the object (always creating a new
incarnation), then either `key_punch` (dkey given) or `obj_punch`. -/
def vos_obj_punch (st : VosState) (oid : Nat) (e : Epoch)
    (dkey : Option Nat) (akeys : List Nat) :
    Except DerErr Unit × VosState :=
  let (obj, st1) := holdCreate st oid
  match dkey with
  | some dk =>
    let (rc, t) := key_punch e obj.tree dk akeys
    match rc with
    | .ok _ => (.ok (), st1.setObj oid { obj with tree := t })
    | .error er => (.error er, st)
  | none => obj_punch st1 oid e

/-- Whether the object reads as empty for a reader at epoch `E` (an OI
tombstone at `p ≤ E` hides the whole object). -/
def objEmptyAt (st : VosState) (oid : Nat) (E : Epoch) : Bool :=
  match st.lookup oid with
  | none => true
  | some r =>
    match r.oiPunched with
    | some p => decide (p ≤ E)
    | none => r.tree.isEmpty

/-! ### OI attribute operations (`vos_oi_set_attr`, `vos_oi_clear_attr`,
`vos_oi_get_attr`) -/

/-- Here `vos_oi_set_attr_helper`: hold the object (creating it), then either OR
the mask in (`set`) or XOR out the bits of the mask that are currently set
(`clear`, written `vo_oi_attr ^= (attr & vo_oi_attr)` in the source). -/
def vos_oi_set_attr_helper (st : VosState) (oid : Nat) (_e : Epoch)
    (attr : Nat) (set : Bool) : Except DerErr Unit × VosState :=
  let (obj, st1) := holdCreate st oid
  let newAttr := if set then obj.oiAttr ||| attr
                 else obj.oiAttr ^^^ (attr &&& obj.oiAttr)
  (.ok (), st1.setObj oid { obj with oiAttr := newAttr })

/-- Here `vos_oi_set_attr`: refuse masks carrying `VOS_OI_PUNCHED` or
`VOS_OI_REMOVED` with `INVAL`, else OR the bits in. -/
def vos_oi_set_attr (st : VosState) (oid : Nat) (e : Epoch) (attr : Nat) :
    Except DerErr Unit × VosState :=
  if attr &&& VOS_OI_PUNCHED ≠ 0 then (.error .INVAL, st)
  else if attr &&& VOS_OI_REMOVED ≠ 0 then (.error .INVAL, st)
  else vos_oi_set_attr_helper st oid e attr true

/-- Here `vos_oi_clear_attr`: refuse masks carrying `VOS_OI_PUNCHED` or
`VOS_OI_REMOVED` with `INVAL`, else clear the set bits of the mask. -/
def vos_oi_clear_attr (st : VosState) (oid : Nat) (e : Epoch) (attr : Nat) :
    Except DerErr Unit × VosState :=
  if attr &&& VOS_OI_PUNCHED ≠ 0 then (.error .INVAL, st)
  else if attr &&& VOS_OI_REMOVED ≠ 0 then (.error .INVAL, st)
  else vos_oi_set_attr_helper st oid e attr false

/-- Here `vos_oi_get_attr`: `INVAL` for a `NULL` out-parameter (`attrNull`);
otherwise hold with `no_create` and return `0` when the object has no
persistent record (`obj_df == NULL`), else its `vo_oi_attr`. -/
def vos_oi_get_attr (st : VosState) (oid : Nat) (_e : Epoch)
    (attrNull : Bool) : Except DerErr Nat :=
  if attrNull then .error .INVAL
  else
    match holdNoCreate st oid with
    | none => .ok 0
    | some r => .ok r.oiAttr

/-! ### Iterator lifecycle and object borrowing
(`vos_obj_iter_prep`, `vos_obj_iter_nested_prep`, `vos_obj_iter_fini`) -/

/-- The four iterator types of `vos_iter_type_t` handled by `vos_obj.c`. -/
inductive IterType where
  | DKEY
  | AKEY
  | SINGLE
  | RECX
deriving DecidableEq, Repr

/-- The lifecycle-relevant fields of a `vos_obj_iter`: its type, the
`it_from_parent` flag of the embedded generic iterator, and whether
`it_obj` is set. -/
structure ObjIter where
  itType : IterType
  fromParent : Bool
  hasObj : Bool
deriving DecidableEq, Repr

/-- Here `vos_obj_iter_prep` as seen by the object refcount: a top-level iterator
holds the object (`vos_obj_hold`), incrementing its refcount;
`it_from_parent` is clear.  `refc` is the object's reference count. -/
def vosObjIterPrep (t : IterType) (refc : Nat) : ObjIter × Nat :=
  (⟨t, false, true⟩, refc + 1)

/-- Here `vos_obj_iter_nested_prep`: a nested `DKEY` iterator takes its own hold
(`nested_dkey_iter_init` calls `vos_obj_hold`); every other nested type
copies `info->ii_obj` from the parent without holding.  The generic
iterator layer (outside these sources, modelled from the spec) marks every
nested iterator with `it_from_parent`. -/
def vosObjIterNestedPrep (t : IterType) (refc : Nat) : ObjIter × Nat :=
  match t with
  | .DKEY => (⟨.DKEY, true, true⟩, refc + 1)
  | _ => (⟨t, true, true⟩, refc)

/-- Here `vos_obj_iter_fini`: release the object only when the iterator did not
borrow it from its parent — i.e. for a `DKEY` iterator (which always takes
its own hold) or one with `it_from_parent` clear. -/
def vosObjIterFini (it : ObjIter) (refc : Nat) : Nat :=
  if it.hasObj && (it.itType == .DKEY || !it.fromParent) then refc - 1
  else refc

/-! ### Extent-entry copy and holes (`recx_iter_copy`, `bio_addr_is_hole`) -/

/-- Here `bio_addr_t`: the media address with its `ba_hole` field (`uint16`). -/
structure BioAddr where
  baHole : Nat
deriving DecidableEq, Repr

/-- Here `bio_addr_is_hole` (bio.h): the address is a hole iff `ba_hole != 0`. -/
def bio_addr_is_hole (a : BioAddr) : Bool :=
  a.baHole != 0

/-- The fields of `bio_iov` used by `recx_iter_copy` (`bi_buf` is `NULL` on
this path). -/
structure BioIov where
  biAddr : BioAddr
  biDataLen : Nat
deriving DecidableEq, Repr

/-- A `d_iov_t` destination: buffer contents, its capacity and `iov_len`. -/
structure DIov where
  iovBuf : List Nat
  iovBufLen : Nat
  iovLen : Nat
deriving DecidableEq, Repr

/-- Result of `recx_iter_copy`: the return code, the destination iov after
the call, and the number of BIO reads issued. -/
structure CopyOut where
  rc : Except DerErr Unit
  iov : DIov
  bioReads : Nat
deriving Repr

/-- Modelled from the spec: `bio_read` copies `len` bytes of media data into
the destination buffer (SCM direct or NVMe DMA staging). -/
def bioReadData (media : List Nat) (len : Nat) (dst : List Nat) : List Nat :=
  (media.take len) ++ dst.drop len

/-- Here `recx_iter_copy` (vos_obj.c): a hole address skips the copy and returns
success without touching the destination and without any BIO read; otherwise
an undersized buffer fails `OVERFLOW`, else `iov_len` is set and `bio_read`
fills the buffer. -/
def recx_iter_copy (biov : BioIov) (iovOut : DIov) (media : List Nat) :
    CopyOut :=
  if bio_addr_is_hole biov.biAddr then
    ⟨.ok (), iovOut, 0⟩
  else if iovOut.iovBufLen < biov.biDataLen then
    ⟨.error .OVERFLOW, iovOut, 0⟩
  else
    ⟨.ok (),
     { iovBuf := bioReadData media biov.biDataLen iovOut.iovBuf
       iovBufLen := iovOut.iovBufLen
       iovLen := biov.biDataLen },
     1⟩

/-! ## Helper lemmas about the modelled btree probes -/

theorem btrProbeFirst_cons (a : Epoch) (t : List Epoch) :
    btrProbeFirst (a :: t) = match btrProbeFirst t with
      | none => some a
      | some m => some (min a m) := rfl

theorem btrProbeLast_cons (a : Epoch) (t : List Epoch) :
    btrProbeLast (a :: t) = match btrProbeLast t with
      | none => some a
      | some m => some (max a m) := rfl

theorem btrProbeFirst_spec (es : List Epoch) :
    (es = [] ∧ btrProbeFirst es = none) ∨
    ∃ m, btrProbeFirst es = some m ∧ m ∈ es ∧ ∀ x ∈ es, m ≤ x := by
  induction es with
  | nil => exact .inl ⟨rfl, rfl⟩
  | cons a t ih =>
    right
    rcases ih with ⟨hnil, hn⟩ | ⟨m, hm, hmem, hmin⟩
    · subst hnil
      exact ⟨a, by rw [btrProbeFirst_cons, hn], by simp, by simp⟩
    · refine ⟨min a m, by rw [btrProbeFirst_cons, hm], ?_, ?_⟩
      · rcases le_total a m with h | h
        · simp [min_eq_left h]
        · simp [min_eq_right h]
          exact .inr hmem
      · intro x hx
        rcases List.mem_cons.mp hx with rfl | hx
        · exact min_le_left _ _
        · exact le_trans (min_le_right _ _) (hmin x hx)

theorem btrProbeLast_spec (es : List Epoch) :
    (es = [] ∧ btrProbeLast es = none) ∨
    ∃ m, btrProbeLast es = some m ∧ m ∈ es ∧ ∀ x ∈ es, x ≤ m := by
  induction es with
  | nil => exact .inl ⟨rfl, rfl⟩
  | cons a t ih =>
    right
    rcases ih with ⟨hnil, hn⟩ | ⟨m, hm, hmem, hmax⟩
    · subst hnil
      exact ⟨a, by rw [btrProbeLast_cons, hn], by simp, by simp⟩
    · refine ⟨max a m, by rw [btrProbeLast_cons, hm], ?_, ?_⟩
      · rcases le_total a m with h | h
        · simp [max_eq_right h]
          exact .inr hmem
        · simp [max_eq_left h]
      · intro x hx
        rcases List.mem_cons.mp hx with rfl | hx
        · exact le_max_left _ _
        · exact le_trans (hmax x hx) (le_max_right _ _)

theorem btrProbeGE_some {es : List Epoch} {e m : Epoch}
    (h : btrProbeGE es e = some m) : m ∈ es ∧ e ≤ m := by
  rcases btrProbeFirst_spec (es.filter (fun x => e ≤ x)) with ⟨-, hn⟩ |
      ⟨m', hm', hmem, -⟩
  · rw [btrProbeGE, hn] at h
    cases h
  · rw [btrProbeGE, hm'] at h
    cases h
    have := List.mem_filter.mp hmem
    exact ⟨this.1, by simpa using this.2⟩

theorem btrProbeGE_none {es : List Epoch} {e : Epoch}
    (h : btrProbeGE es e = none) : ∀ x ∈ es, x < e := by
  intro x hx
  by_contra hlt
  push_neg at hlt
  rcases btrProbeFirst_spec (es.filter (fun x => e ≤ x)) with ⟨hnil, -⟩ |
      ⟨m', hm', -, -⟩
  · have : x ∈ es.filter (fun x => e ≤ x) := List.mem_filter.mpr ⟨hx, by simpa⟩
    rw [hnil] at this
    cases this
  · rw [btrProbeGE, hm'] at h
    cases h

theorem btrProbeLE_some {es : List Epoch} {e m : Epoch}
    (h : btrProbeLE es e = some m) : m ∈ es ∧ m ≤ e := by
  rcases btrProbeLast_spec (es.filter (fun x => x ≤ e)) with ⟨-, hn⟩ |
      ⟨m', hm', hmem, -⟩
  · rw [btrProbeLE, hn] at h
    cases h
  · rw [btrProbeLE, hm'] at h
    cases h
    have := List.mem_filter.mp hmem
    exact ⟨this.1, by simpa using this.2⟩

theorem btrProbeLE_none {es : List Epoch} {e : Epoch}
    (h : btrProbeLE es e = none) : ∀ x ∈ es, e < x := by
  intro x hx
  by_contra hlt
  push_neg at hlt
  rcases btrProbeLast_spec (es.filter (fun x => x ≤ e)) with ⟨hnil, -⟩ |
      ⟨m', hm', -, -⟩
  · have : x ∈ es.filter (fun x => x ≤ e) := List.mem_filter.mpr ⟨hx, by simpa⟩
    rw [hnil] at this
    cases this
  · rw [btrProbeLE, hm'] at h
    cases h

theorem btrProbeEQ_some {es : List Epoch} {e m : Epoch}
    (h : btrProbeEQ es e = some m) : m = e ∧ e ∈ es := by
  by_cases hmem : e ∈ es
  · rw [btrProbeEQ, if_pos hmem] at h
    cases h
    exact ⟨rfl, hmem⟩
  · rw [btrProbeEQ, if_neg hmem] at h
    cases h

/-- Soundness of the `singv_iter_probe_epr` loop: an accepted epoch lies in
the window of the epoch expression. -/
theorem singvIterProbeEpr_ok_inRange :
    ∀ (fuel : Nat) (expr : EpcExpr) (epr : EpochRange) (es : List Epoch)
      (e r : Epoch),
      singvIterProbeEpr fuel expr epr es e = some (.ok r) →
      epcExprInRange expr epr r := by
  intro fuel
  induction fuel with
  | zero =>
    intro expr epr es e r h
    simp [singvIterProbeEpr] at h
  | succ n ih =>
    intro expr epr es e r h
    cases expr with
    | EQ =>
      rw [singvIterProbeEpr] at h
      by_cases h1 : e > epr.hi
      · rw [if_pos h1] at h
        cases h
      · rw [if_neg h1] at h
        by_cases h2 : e < epr.lo
        · rw [if_pos h2] at h
          cases hb : btrProbeEQ es epr.lo with
          | none => rw [hb] at h; cases h
          | some e2 => rw [hb] at h; exact ih .EQ epr es e2 r h
        · rw [if_neg h2] at h
          cases h
          exact ⟨le_of_not_lt h2, le_of_not_lt h1⟩
    | RE =>
      rw [singvIterProbeEpr] at h
      by_cases h1 : e > epr.hi
      · rw [if_pos h1] at h
        cases h
      · rw [if_neg h1] at h
        by_cases h2 : e < epr.lo
        · rw [if_pos h2] at h
          cases hb : btrProbeGE es epr.lo with
          | none => rw [hb] at h; cases h
          | some e2 => rw [hb] at h; exact ih .RE epr es e2 r h
        · rw [if_neg h2] at h
          cases h
          exact ⟨le_of_not_lt h2, le_of_not_lt h1⟩
    | RR =>
      rw [singvIterProbeEpr] at h
      by_cases h1 : e < epr.lo
      · rw [if_pos h1] at h
        cases h
      · rw [if_neg h1] at h
        by_cases h2 : e > epr.hi
        · rw [if_pos h2] at h
          cases hb : btrProbeLE es epr.hi with
          | none => rw [hb] at h; cases h
          | some e2 => rw [hb] at h; exact ih .RR epr es e2 r h
        · rw [if_neg h2] at h
          cases h
          exact ⟨le_of_not_lt h1, le_of_not_lt h2⟩
    | GE =>
      rw [singvIterProbeEpr] at h
      by_cases h1 : e < epr.lo
      · rw [if_pos h1] at h
        cases hb : btrProbeGE es epr.lo with
        | none => rw [hb] at h; cases h
        | some e2 => rw [hb] at h; exact ih .GE epr es e2 r h
      · rw [if_neg h1] at h
        cases h
        exact le_of_not_lt h1
    | LE =>
      rw [singvIterProbeEpr] at h
      by_cases h1 : e > epr.lo
      · rw [if_pos h1] at h
        cases hb : btrProbeLE es epr.lo with
        | none => rw [hb] at h; cases h
        | some e2 => rw [hb] at h; exact ih .LE epr es e2 r h
      · rw [if_neg h1] at h
        cases h
        exact le_of_not_lt h1

/-- Unwrapping the fuel default: an `.ok` result comes from the loop. -/
theorem probeEpr_getD_ok {o : Option (Except DerErr Epoch)} {d : DerErr}
    {e : Epoch} (h : o.getD (.error d) = .ok e) : o = some (.ok e) := by
  cases o with
  | none => exact absurd h (by simp)
  | some v => simp_all

/-- An accepted epoch is the starting cursor or a tree member. -/
theorem singvIterProbeEpr_ok_src :
    ∀ (fuel : Nat) (expr : EpcExpr) (epr : EpochRange) (es : List Epoch)
      (e r : Epoch),
      singvIterProbeEpr fuel expr epr es e = some (.ok r) →
      r = e ∨ r ∈ es := by
  intro fuel
  induction fuel with
  | zero =>
    intro expr epr es e r h
    simp [singvIterProbeEpr] at h
  | succ n ih =>
    intro expr epr es e r h
    cases expr with
    | EQ =>
      rw [singvIterProbeEpr] at h
      split_ifs at h with h1 h2
      · cases h
      · cases hb : btrProbeEQ es epr.lo with
        | none => rw [hb] at h; cases h
        | some e2 =>
          rw [hb] at h
          rcases ih .EQ epr es e2 r h with rfl | hr
          · exact .inr ((btrProbeEQ_some hb).1 ▸ (btrProbeEQ_some hb).2)
          · exact .inr hr
      · cases h
        exact .inl rfl
    | RE =>
      rw [singvIterProbeEpr] at h
      split_ifs at h with h1 h2
      · cases h
      · cases hb : btrProbeGE es epr.lo with
        | none => rw [hb] at h; cases h
        | some e2 =>
          rw [hb] at h
          rcases ih .RE epr es e2 r h with rfl | hr
          · exact .inr (btrProbeGE_some hb).1
          · exact .inr hr
      · cases h
        exact .inl rfl
    | RR =>
      rw [singvIterProbeEpr] at h
      split_ifs at h with h1 h2
      · cases h
      · cases hb : btrProbeLE es epr.hi with
        | none => rw [hb] at h; cases h
        | some e2 =>
          rw [hb] at h
          rcases ih .RR epr es e2 r h with rfl | hr
          · exact .inr (btrProbeLE_some hb).1
          · exact .inr hr
      · cases h
        exact .inl rfl
    | GE =>
      rw [singvIterProbeEpr] at h
      split_ifs at h with h1
      · cases hb : btrProbeGE es epr.lo with
        | none => rw [hb] at h; cases h
        | some e2 =>
          rw [hb] at h
          rcases ih .GE epr es e2 r h with rfl | hr
          · exact .inr (btrProbeGE_some hb).1
          · exact .inr hr
      · cases h
        exact .inl rfl
    | LE =>
      rw [singvIterProbeEpr] at h
      split_ifs at h with h1
      · cases hb : btrProbeLE es epr.lo with
        | none => rw [hb] at h; cases h
        | some e2 =>
          rw [hb] at h
          rcases ih .LE epr es e2 r h with rfl | hr
          · exact .inr (btrProbeLE_some hb).1
          · exact .inr hr
      · cases h
        exact .inl rfl

/-- Every failure produced by the loop is `NONEXIST`. -/
theorem singvIterProbeEpr_error :
    ∀ (fuel : Nat) (expr : EpcExpr) (epr : EpochRange) (es : List Epoch)
      (e : Epoch) (d : DerErr),
      singvIterProbeEpr fuel expr epr es e = some (.error d) →
      d = .NONEXIST := by
  intro fuel
  induction fuel with
  | zero =>
    intro expr epr es e d h
    simp [singvIterProbeEpr] at h
  | succ n ih =>
    intro expr epr es e d h
    cases expr <;> rw [singvIterProbeEpr] at h <;> split_ifs at h <;>
      first
      | (cases h; rfl)
      | cases h
      | (rename_i hmatch
         cases hb : btrProbeEQ es epr.lo <;> rw [hb] at h
         · cases h; rfl
         · exact ih _ epr es _ d h)
      | (cases hb : btrProbeGE es epr.lo <;> rw [hb] at h
         · cases h; rfl
         · exact ih _ epr es _ d h)
      | (cases hb : btrProbeLE es epr.hi <;> rw [hb] at h
         · cases h; rfl
         · exact ih _ epr es _ d h)
      | (cases hb : btrProbeLE es epr.lo <;> rw [hb] at h
         · cases h; rfl
         · exact ih _ epr es _ d h)

/-- One round of the loop settles whenever the cursor already satisfies the
condition that would trigger a re-probe. -/
theorem singvIterProbeEpr_succ_isSome (expr : EpcExpr) (epr : EpochRange)
    (es : List Epoch) (e : Epoch) (n : Nat)
    (hstable : match expr with
      | .RR => ¬ epr.hi < e
      | .LE => ¬ epr.lo < e
      | _ => ¬ e < epr.lo) :
    (singvIterProbeEpr (n + 1) expr epr es e).isSome := by
  cases expr <;> rw [singvIterProbeEpr] <;> split_ifs <;>
    first
    | rfl
    | exact absurd (by assumption) hstable

/-- With fuel 2 the loop always settles (the C loop re-probes at most
once). -/
theorem singvIterProbeEpr_succ2_isSome (expr : EpcExpr) (epr : EpochRange)
    (es : List Epoch) (e : Epoch) (n : Nat) :
    (singvIterProbeEpr (n + 1 + 1) expr epr es e).isSome := by
  cases expr with
  | EQ =>
    rw [singvIterProbeEpr]
    split_ifs with h1 h2
    · rfl
    · cases hb : btrProbeEQ es epr.lo with
      | none => rfl
      | some e2 =>
        obtain ⟨rfl, -⟩ := btrProbeEQ_some hb
        exact singvIterProbeEpr_succ_isSome .EQ epr es epr.lo n (lt_irrefl _)
    · rfl
  | RE =>
    rw [singvIterProbeEpr]
    split_ifs with h1 h2
    · rfl
    · cases hb : btrProbeGE es epr.lo with
      | none => rfl
      | some e2 =>
        exact singvIterProbeEpr_succ_isSome .RE epr es e2 n
          (not_lt_of_le (btrProbeGE_some hb).2)
    · rfl
  | RR =>
    rw [singvIterProbeEpr]
    split_ifs with h1 h2
    · rfl
    · cases hb : btrProbeLE es epr.hi with
      | none => rfl
      | some e2 =>
        exact singvIterProbeEpr_succ_isSome .RR epr es e2 n
          (not_lt_of_le (btrProbeLE_some hb).2)
    · rfl
  | GE =>
    rw [singvIterProbeEpr]
    split_ifs with h1
    · cases hb : btrProbeGE es epr.lo with
      | none => rfl
      | some e2 =>
        exact singvIterProbeEpr_succ_isSome .GE epr es e2 n
          (not_lt_of_le (btrProbeGE_some hb).2)
    · rfl
  | LE =>
    rw [singvIterProbeEpr]
    split_ifs with h1
    · cases hb : btrProbeLE es epr.lo with
      | none => rfl
      | some e2 =>
        exact singvIterProbeEpr_succ_isSome .LE epr es e2 n
          (not_lt_of_le (btrProbeLE_some hb).2)
    · rfl

/-- With fuel 2 the loop always settles. -/
theorem singvIterProbeEpr_two_isSome (expr : EpcExpr) (epr : EpochRange)
    (es : List Epoch) (e : Epoch) :
    (singvIterProbeEpr 2 expr epr es e).isSome :=
  singvIterProbeEpr_succ2_isSome expr epr es e 0

/-- When no tree epoch matches the expression, the loop (started on a tree
member) fails with `NONEXIST`. -/
theorem singvIterProbeEpr_noMatch (expr : EpcExpr) (epr : EpochRange)
    (es : List Epoch) (e : Epoch) (he : e ∈ es)
    (hemp : ∀ x ∈ es, ¬ epcExprInRange expr epr x) :
    singvIterProbeEpr 2 expr epr es e = some (.error .NONEXIST) := by
  obtain ⟨v, hv⟩ :=
    Option.isSome_iff_exists.mp (singvIterProbeEpr_two_isSome expr epr es e)
  cases v with
  | ok r =>
    have hin := singvIterProbeEpr_ok_inRange 2 expr epr es e r hv
    rcases singvIterProbeEpr_ok_src 2 expr epr es e r hv with rfl | hr
    · exact absurd hin (hemp _ he)
    · exact absurd hin (hemp _ hr)
  | error d =>
    rw [singvIterProbeEpr_error 2 expr epr es e d hv] at hv
    exact hv

/-- Soundness of `singv_iter_probe`: it yields only in-window epochs. -/
theorem singvIterProbe_ok_inRange (expr : EpcExpr) (epr : EpochRange)
    (es : List Epoch) (e : Epoch) (h : singvIterProbe expr epr es = .ok e) :
    epcExprInRange expr epr e := by
  cases expr <;> simp only [singvIterProbe] at h
  case RR =>
    cases hb : btrProbeLast es with
    | none => rw [hb] at h; cases h
    | some e1 =>
      rw [hb] at h
      exact singvIterProbeEpr_ok_inRange 2 .RR epr es e1 e (probeEpr_getD_ok h)
  all_goals
    cases hb : btrProbeFirst es with
    | none => rw [hb] at h; cases h
    | some e1 =>
      rw [hb] at h
      exact singvIterProbeEpr_ok_inRange 2 _ epr es e1 e (probeEpr_getD_ok h)

/-- Soundness of `singv_iter_next`: it yields only in-window epochs. -/
theorem singvIterNext_ok_inRange (expr : EpcExpr) (epr : EpochRange)
    (es : List Epoch) (cur e : Epoch)
    (h : singvIterNext expr epr es cur = .ok e) :
    epcExprInRange expr epr e := by
  cases expr <;> simp only [singvIterNext] at h
  case RR =>
    cases hb : btrProbeLE es ((cur + (2 ^ 64 - 1)) % 2 ^ 64) with
    | none => rw [hb] at h; cases h
    | some e1 =>
      rw [hb] at h
      exact singvIterProbeEpr_ok_inRange 2 .RR epr es e1 e (probeEpr_getD_ok h)
  case RE =>
    cases hb : btrProbeGE es ((cur + 1) % 2 ^ 64) with
    | none => rw [hb] at h; cases h
    | some e1 =>
      rw [hb] at h
      exact singvIterProbeEpr_ok_inRange 2 .RE epr es e1 e (probeEpr_getD_ok h)
  all_goals
    cases hb : btrProbeGE es DAOS_EPOCH_MAX with
    | none => rw [hb] at h; cases h
    | some e1 =>
      rw [hb] at h
      exact singvIterProbeEpr_ok_inRange 2 _ epr es e1 e (probeEpr_getD_ok h)

/-- When no tree epoch matches the expression, `singv_iter_probe` returns
`NONEXIST`. -/
theorem singvIterProbe_noMatch (expr : EpcExpr) (epr : EpochRange)
    (es : List Epoch)
    (hemp : ∀ x ∈ es, ¬ epcExprInRange expr epr x) :
    singvIterProbe expr epr es = .error .NONEXIST := by
  cases expr <;> simp only [singvIterProbe]
  case RR =>
    rcases btrProbeLast_spec es with ⟨hnil, hn⟩ | ⟨m, hm, hmem, -⟩
    · rw [hn]
    · rw [hm]
      simp [singvIterProbeEpr_noMatch .RR epr es m hmem hemp]
  all_goals
    rcases btrProbeFirst_spec es with ⟨hnil, hn⟩ | ⟨m, hm, hmem, -⟩
    · rw [hn]
    · rw [hm]
      simp [singvIterProbeEpr_noMatch _ epr es m hmem hemp]

/-! ## Helper lemmas about the object-state model -/

theorem findMap_replace (oid : Nat) (r : ObjRec) (l : List (Nat × ObjRec))
    (hany : l.any (fun p => p.1 == oid) = true) :
    (l.map (fun p => if p.1 == oid then (oid, r) else p)).find?
      (fun p => p.1 == oid) = some (oid, r) := by
  induction l with
  | nil => simp at hany
  | cons p t ih =>
    rw [List.map_cons]
    by_cases hp : (p.1 == oid) = true
    · have hc : (((oid, r) : Nat × ObjRec).1 == oid) = true := by simp
      rw [if_pos hp, List.find?_cons, hc]
    · have hc : (p.1 == oid) = false := by simpa using hp
      simp only [List.any_cons, hp, Bool.false_or] at hany
      rw [if_neg hp, List.find?_cons, hc]
      exact ih hany

theorem findMap_replace_ne (oid o : Nat) (r : ObjRec)
    (l : List (Nat × ObjRec)) (hne : o ≠ oid) :
    (l.map (fun p => if p.1 == oid then (oid, r) else p)).find?
      (fun p => p.1 == o) = l.find? (fun p => p.1 == o) := by
  induction l with
  | nil => rfl
  | cons p t ih =>
    rw [List.map_cons]
    have hoo : (((oid, r) : Nat × ObjRec).1 == o) = false := by
      simpa using Ne.symm hne
    by_cases hp : (p.1 == oid) = true
    · have hp1 : p.1 = oid := by simpa using hp
      have hpo : (p.1 == o) = false := by
        rw [hp1]
        simpa using Ne.symm hne
      rw [if_pos hp, List.find?_cons, List.find?_cons, hoo, hpo]
      exact ih
    · rw [if_neg hp, List.find?_cons, List.find?_cons]
      cases hpo : (p.1 == o) with
      | true => rfl
      | false => exact ih

theorem VosState.lookup_setObj_self (st : VosState) (oid : Nat) (r : ObjRec) :
    (st.setObj oid r).lookup oid = some r := by
  unfold VosState.setObj VosState.lookup
  by_cases hany : st.objs.any (fun p => p.1 == oid)
  · simp only [if_pos hany]
    rw [findMap_replace oid r st.objs hany]
    rfl
  · simp only [if_neg hany]
    rw [List.find?_append]
    have hnone : st.objs.find? (fun p => p.1 == oid) = none := by
      rw [List.find?_eq_none]
      intro x hx
      intro hpx
      exact hany (List.any_eq_true.mpr ⟨x, hx, hpx⟩)
    simp [hnone]

theorem VosState.lookup_setObj_ne (st : VosState) (oid o : Nat) (r : ObjRec)
    (hne : o ≠ oid) :
    (st.setObj oid r).lookup o = st.lookup o := by
  unfold VosState.setObj VosState.lookup
  by_cases hany : st.objs.any (fun p => p.1 == oid)
  · simp only [if_pos hany]
    rw [findMap_replace_ne oid o r st.objs hne]
  · simp only [if_neg hany]
    rw [List.find?_append]
    cases hf : st.objs.find? (fun p => p.1 == o) with
    | none =>
      have hc : ((oid : Nat) == o) = false := by
        simpa using Ne.symm hne
      simp [hf, hc]
    | some v => simp [hf]

/-! ## Claim theorems -/

/-- C6: `vos_oi_set_attr` and `vos_oi_clear_attr` refuse any mask carrying
the `PUNCHED` or `REMOVED` bit with `INVAL`, leaving the object state (and
thus its attribute bits) untouched. -/
theorem claim_C6_reserved_attr_bits (st : VosState) (oid : Nat) (e : Epoch)
    (attr : Nat)
    (h : attr &&& VOS_OI_PUNCHED ≠ 0 ∨ attr &&& VOS_OI_REMOVED ≠ 0) :
    vos_oi_set_attr st oid e attr = (.error .INVAL, st) ∧
    vos_oi_clear_attr st oid e attr = (.error .INVAL, st) := by
  unfold vos_oi_set_attr vos_oi_clear_attr
  by_cases h1 : attr &&& VOS_OI_PUNCHED ≠ 0
  · simp [h1]
  · have h2 : attr &&& VOS_OI_REMOVED ≠ 0 := h.resolve_left h1
    simp [h1, h2]

/-- Witness for C6 at a concrete mask carrying the `PUNCHED` bit. -/
theorem claim_C6_witness :
    vos_oi_set_attr ⟨[], []⟩ 7 3 VOS_OI_PUNCHED = (.error .INVAL, ⟨[], []⟩) ∧
    vos_oi_clear_attr ⟨[], []⟩ 7 3 VOS_OI_PUNCHED = (.error .INVAL, ⟨[], []⟩) :=
  claim_C6_reserved_attr_bits ⟨[], []⟩ 7 3 VOS_OI_PUNCHED (.inl (by decide))

/-- C7: `vos_oi_get_attr` with a non-`NULL` out-parameter on an object with
no persistent record succeeds and reports attribute mask `0`. -/
theorem claim_C7_get_attr_nonexistent (st : VosState) (oid : Nat) (e : Epoch)
    (h : st.lookup oid = none) :
    vos_oi_get_attr st oid e false = .ok 0 := by
  unfold vos_oi_get_attr holdNoCreate
  rw [h]
  rfl

/-- Witness for C7 on an empty store. -/
theorem claim_C7_witness : vos_oi_get_attr ⟨[], []⟩ 42 5 false = .ok 0 :=
  claim_C7_get_attr_nonexistent ⟨[], []⟩ 42 5 (by rfl)

/-- C9: nested `AKEY`/`SINGLE`/`RECX` iterators borrow the parent's held
object without a reference of their own and their fini never releases it;
the reference taken by a top-level iterator or a nested `DKEY` iterator is
released exactly once by that iterator's fini, so prepare/fini always
leaves the object refcount unchanged. -/
theorem claim_C9_nested_borrowing :
    (∀ (t : IterType) (n : Nat), t ≠ .DKEY →
        (vosObjIterNestedPrep t n).2 = n ∧
        vosObjIterFini (vosObjIterNestedPrep t n).1
          (vosObjIterNestedPrep t n).2 = n) ∧
    (∀ (t : IterType) (n : Nat),
        (vosObjIterPrep t n).2 = n + 1 ∧
        vosObjIterFini (vosObjIterPrep t n).1 (vosObjIterPrep t n).2 = n) ∧
    (∀ n : Nat,
        (vosObjIterNestedPrep .DKEY n).2 = n + 1 ∧
        vosObjIterFini (vosObjIterNestedPrep .DKEY n).1
          (vosObjIterNestedPrep .DKEY n).2 = n) := by
  refine ⟨?_, ?_, ?_⟩
  · intro t n ht
    cases t with
    | DKEY => exact absurd rfl ht
    | AKEY => exact ⟨rfl, rfl⟩
    | SINGLE => exact ⟨rfl, rfl⟩
    | RECX => exact ⟨rfl, rfl⟩
  · intro t n
    exact ⟨rfl, by simp [vosObjIterPrep, vosObjIterFini]⟩
  · intro n
    exact ⟨rfl, by simp [vosObjIterNestedPrep, vosObjIterFini]⟩

/-- Witness for C9 with a nested `RECX` iterator at refcount 3. -/
theorem claim_C9_witness :
    (vosObjIterNestedPrep .RECX 3).2 = 3 ∧
    vosObjIterFini (vosObjIterNestedPrep .RECX 3).1
      (vosObjIterNestedPrep .RECX 3).2 = 3 :=
  claim_C9_nested_borrowing.1 .RECX 3 (by decide)

/-- C4 counterexample: `recx_iter_copy` on a hole entry returns success with
no BIO read but leaves the destination buffer exactly as it was — it is not
zero-filled by this operation. -/
theorem claim_C4_counterexample :
    (recx_iter_copy ⟨⟨1⟩, 1⟩ ⟨[5], 1, 0⟩ [7]).rc = .ok () ∧
    (recx_iter_copy ⟨⟨1⟩, 1⟩ ⟨[5], 1, 0⟩ [7]).bioReads = 0 ∧
    (recx_iter_copy ⟨⟨1⟩, 1⟩ ⟨[5], 1, 0⟩ [7]).iov.iovBuf = [5] ∧
    (recx_iter_copy ⟨⟨1⟩, 1⟩ ⟨[5], 1, 0⟩ [7]).iov.iovBuf ≠ [0] :=
  ⟨rfl, rfl, rfl, by decide⟩

/-- C4 (amended): an iterator copy of an extent entry whose address carries
the hole bit performs no BIO read and returns success, leaving the
destination iov untouched (the engine skips the copy; zero-filling belongs
to the fetch path's I/O layer). -/
theorem claim_C4_hole_copy (biov : BioIov) (iovOut : DIov) (media : List Nat)
    (h : bio_addr_is_hole biov.biAddr = true) :
    recx_iter_copy biov iovOut media = ⟨.ok (), iovOut, 0⟩ := by
  unfold recx_iter_copy
  rw [h]
  rfl

/-- Witness for C4 at a concrete hole address. -/
theorem claim_C4_witness :
    recx_iter_copy ⟨⟨2⟩, 4⟩ ⟨[9, 9], 2, 0⟩ [1, 2] =
      ⟨.ok (), ⟨[9, 9], 2, 0⟩, 0⟩ :=
  claim_C4_hole_copy ⟨⟨2⟩, 4⟩ ⟨[9, 9], 2, 0⟩ [1, 2] (by rfl)


/-- C3 (amended): probe and next of the single-value iterator only yield
epochs inside the expression's window (`EQ`/`RE`/`RR`: within
`[epr.lo, epr.hi]`; `GE`: `≥ epr.lo`; `LE`: `≤ epr.lo`) and return
`NONEXIST` when no stored epoch matches; concretely, over values at epochs
{2,4,6,8}: `GE` with `epr.lo = 5` yields 6, `RR` over `[3,7]` enumerates 6
then 4 then `NONEXIST`, and `LE` with `epr.lo = 5` yields 2 — the earliest
stored epoch, accepted as soon as it is `≤ epr.lo`. -/
theorem claim_C3_singv_epoch_expression :
    (∀ (expr : EpcExpr) (epr : EpochRange) (es : List Epoch) (e : Epoch),
        singvIterProbe expr epr es = .ok e → epcExprInRange expr epr e) ∧
    (∀ (expr : EpcExpr) (epr : EpochRange) (es : List Epoch) (cur e : Epoch),
        singvIterNext expr epr es cur = .ok e → epcExprInRange expr epr e) ∧
    (∀ (expr : EpcExpr) (epr : EpochRange) (es : List Epoch),
        (∀ x ∈ es, ¬ epcExprInRange expr epr x) →
        singvIterProbe expr epr es = .error .NONEXIST) ∧
    singvIterProbe .LE ⟨5, 8⟩ [2, 4, 6, 8] = .ok 2 ∧
    singvIterProbe .GE ⟨5, 8⟩ [2, 4, 6, 8] = .ok 6 ∧
    singvIterProbe .RR ⟨3, 7⟩ [2, 4, 6, 8] = .ok 6 ∧
    singvIterNext .RR ⟨3, 7⟩ [2, 4, 6, 8] 6 = .ok 4 ∧
    singvIterNext .RR ⟨3, 7⟩ [2, 4, 6, 8] 4 = .error .NONEXIST ∧
    singvIterProbe .EQ ⟨4, 4⟩ [2, 4, 6, 8] = .ok 4 :=
  ⟨singvIterProbe_ok_inRange, singvIterNext_ok_inRange, singvIterProbe_noMatch,
   rfl, rfl, rfl, rfl, rfl, rfl⟩

/-- Witness for C3: the soundness conjuncts applied at concrete iterations
over epochs {2,4,6,8}. -/
theorem claim_C3_witness :
    epcExprInRange .GE ⟨5, 8⟩ 6 ∧ epcExprInRange .RR ⟨3, 7⟩ 4 ∧
    singvIterProbe .EQ ⟨10, 12⟩ [2, 4, 6, 8] = .error .NONEXIST :=
  ⟨claim_C3_singv_epoch_expression.1 .GE ⟨5, 8⟩ [2, 4, 6, 8] 6 (by rfl),
   claim_C3_singv_epoch_expression.2.1 .RR ⟨3, 7⟩ [2, 4, 6, 8] 6 4 (by rfl),
   claim_C3_singv_epoch_expression.2.2.1 .EQ ⟨10, 12⟩ [2, 4, 6, 8]
     (by decide)⟩

/-- C3 counterexample: with values at epochs {2,4,6,8}, `probe(EPC_LE,
epr.lo=5)` yields epoch 2, not epoch 4 as the claim ("last epoch ≤ epr.lo")
states — the iterator's initial `FIRST` probe lands on the smallest epoch
and `singv_iter_probe_epr` accepts it because `2 ≤ 5`. -/
theorem claim_C3_counterexample :
    singvIterProbe .LE ⟨5, 8⟩ [2, 4, 6, 8] = .ok 2 ∧
    singvIterProbe .LE ⟨5, 8⟩ [2, 4, 6, 8] ≠ .ok 4 := by
  constructor
  · rfl
  · intro h
    have h2 : (2 : Epoch) = 4 := Except.ok.inj h
    exact absurd h2 (by decide)


/-- The dkey tree of object `oid` as persisted in the store (empty when the
object has no record). -/
def objTree (st : VosState) (oid : Nat) : List DkEnt :=
  ((st.lookup oid).map (fun r => r.tree)).getD []

/-- Eviction removes the object from the cache. -/
theorem vosObjEvict_not_mem (st : VosState) (oid : Nat) :
    oid ∉ (vosObjEvict st oid).cache := by
  intro hmem
  unfold vosObjEvict at hmem
  simp only [List.mem_filter] at hmem
  have hc : oid ≠ oid := by simpa using hmem.2
  exact hc rfl

/-- Eviction does not touch the object index. -/
theorem vosObjEvict_lookup (st : VosState) (oid o : Nat) :
    (vosObjEvict st oid).lookup o = st.lookup o := rfl

/-- Here `obj_punch` on an existing object record: OI tombstone written, then
eviction. -/
theorem obj_punch_spec (st : VosState) (oid : Nat) (e : Epoch) (r : ObjRec)
    (hlk : st.lookup oid = some r) :
    obj_punch st oid e =
      (.ok (),
       vosObjEvict (st.setObj oid { r with oiPunched := some e }) oid) := by
  unfold obj_punch vosOiPunch
  rw [hlk]

/-- C8: a successful object-level punch (no dkey) writes the OI tombstone at
the punch epoch, evicts the object from the handle cache, and every later
reader at `E ≥ epoch` observes an empty object. -/
theorem claim_C8_object_punch (st : VosState) (oid : Nat) (e : Epoch) :
    (vos_obj_punch st oid e none []).1 = .ok () ∧
    oid ∉ (vos_obj_punch st oid e none []).2.cache ∧
    ((vos_obj_punch st oid e none []).2.lookup oid).map
      (fun r => r.oiPunched) = some (some e) ∧
    ∀ E, e ≤ E → objEmptyAt (vos_obj_punch st oid e none []).2 oid E = true := by
  cases hlk : st.lookup oid with
  | some r =>
    have hlk1 : ({ st with
        cache := if oid ∈ st.cache then st.cache
                 else oid :: st.cache } : VosState).lookup oid = some r := hlk
    have hout : vos_obj_punch st oid e none [] =
        (.ok (),
         vosObjEvict
           (VosState.setObj { st with
              cache := if oid ∈ st.cache then st.cache
                       else oid :: st.cache } oid
              { r with oiPunched := some e }) oid) := by
      unfold vos_obj_punch holdCreate
      rw [hlk]
      exact obj_punch_spec _ oid e r hlk1
    rw [hout]
    refine ⟨rfl, vosObjEvict_not_mem _ oid, ?_, ?_⟩
    · rw [vosObjEvict_lookup, VosState.lookup_setObj_self]
      rfl
    · intro E hE
      unfold objEmptyAt
      rw [vosObjEvict_lookup, VosState.lookup_setObj_self]
      simpa using hE
  | none =>
    have hlk1 : ({ (st.setObj oid ObjRec.empty) with
        cache := oid :: st.cache } : VosState).lookup oid
        = some ObjRec.empty := VosState.lookup_setObj_self st oid ObjRec.empty
    have hout : vos_obj_punch st oid e none [] =
        (.ok (),
         vosObjEvict
           (VosState.setObj { (st.setObj oid ObjRec.empty) with
              cache := oid :: st.cache } oid
              { ObjRec.empty with oiPunched := some e }) oid) := by
      unfold vos_obj_punch holdCreate
      rw [hlk]
      exact obj_punch_spec _ oid e ObjRec.empty hlk1
    rw [hout]
    refine ⟨rfl, vosObjEvict_not_mem _ oid, ?_, ?_⟩
    · rw [vosObjEvict_lookup, VosState.lookup_setObj_self]
      rfl
    · intro E hE
      unfold objEmptyAt
      rw [vosObjEvict_lookup, VosState.lookup_setObj_self]
      simpa using hE

/-- C10: when `vos_obj_punch` is given a dkey and a non-empty akey list and
preparing the dkey subtree reports `NONEXIST` (the dkey is a visible
tombstone at that epoch), the call succeeds with return code 0 and no dkey
tree in the store changes. -/
theorem claim_C10_punch_missing_dkey (st : VosState) (oid dk : Nat)
    (e : Epoch) (aks : List Nat) (hne : aks ≠ [])
    (hprep : keyTreePrepare e dk (objTree st oid) = .error .NONEXIST) :
    (vos_obj_punch st oid e (some dk) aks).1 = .ok () ∧
    ∀ o, objTree (vos_obj_punch st oid e (some dk) aks).2 o = objTree st o := by
  cases hlk : st.lookup oid with
  | none =>
    exfalso
    have htree : objTree st oid = [] := by
      unfold objTree
      rw [hlk]
      rfl
    rw [htree] at hprep
    exact absurd hprep (by simp [keyTreePrepare, lookupKey])
  | some r =>
    have htree : objTree st oid = r.tree := by
      unfold objTree
      rw [hlk]
      rfl
    rw [htree] at hprep
    obtain ⟨a, rest, rfl⟩ : ∃ a rest, aks = a :: rest := by
      cases aks with
      | nil => exact absurd rfl hne
      | cons a rest => exact ⟨a, rest, rfl⟩
    have hkp : key_punch e r.tree dk (a :: rest) = (.ok (), r.tree) := by
      unfold key_punch
      rw [hprep]
    have hout : vos_obj_punch st oid e (some dk) (a :: rest) =
        (.ok (),
         VosState.setObj { st with
            cache := if oid ∈ st.cache then st.cache
                     else oid :: st.cache } oid { r with tree := r.tree }) := by
      unfold vos_obj_punch holdCreate
      rw [hlk]
      simp only [hkp]
    rw [hout]
    refine ⟨rfl, ?_⟩
    intro o
    by_cases ho : o = oid
    · subst ho
      unfold objTree
      rw [VosState.lookup_setObj_self, hlk]
    · unfold objTree
      rw [VosState.lookup_setObj_ne _ _ _ _ ho]
      rfl


/-- Witness for C8: punching object 1 at epoch 5 in a one-object store. -/
theorem claim_C8_witness :
    (vos_obj_punch ⟨[(1, ⟨0, none, []⟩)], [1]⟩ 1 5 none []).1 = .ok () ∧
    1 ∉ (vos_obj_punch ⟨[(1, ⟨0, none, []⟩)], [1]⟩ 1 5 none []).2.cache ∧
    objEmptyAt (vos_obj_punch ⟨[(1, ⟨0, none, []⟩)], [1]⟩ 1 5 none []).2 1 7
      = true :=
  ⟨(claim_C8_object_punch ⟨[(1, ⟨0, none, []⟩)], [1]⟩ 1 5).1,
   (claim_C8_object_punch ⟨[(1, ⟨0, none, []⟩)], [1]⟩ 1 5).2.1,
   (claim_C8_object_punch ⟨[(1, ⟨0, none, []⟩)], [1]⟩ 1 5).2.2.2 7
     (by decide)⟩

/-- Witness for C10: punching akey 9 under dkey 2 of object 1 when dkey 2 is
already a tombstone at epoch 1 ≤ 3. -/
theorem claim_C10_witness :
    (vos_obj_punch ⟨[(1, ⟨0, none, [⟨2, 1, ⟨1, 1, true, []⟩⟩]⟩)], []⟩
       1 3 (some 2) [9]).1 = .ok () ∧
    objTree (vos_obj_punch ⟨[(1, ⟨0, none, [⟨2, 1, ⟨1, 1, true, []⟩⟩]⟩)], []⟩
       1 3 (some 2) [9]).2 1 =
      objTree ⟨[(1, ⟨0, none, [⟨2, 1, ⟨1, 1, true, []⟩⟩]⟩)], []⟩ 1 :=
  ⟨(claim_C10_punch_missing_dkey ⟨[(1, ⟨0, none, [⟨2, 1, ⟨1, 1, true, []⟩⟩]⟩)],
      []⟩ 1 2 3 [9] (by decide) (by rfl)).1,
   (claim_C10_punch_missing_dkey ⟨[(1, ⟨0, none, [⟨2, 1, ⟨1, 1, true, []⟩⟩]⟩)],
      []⟩ 1 2 3 [9] (by decide) (by rfl)).2 1⟩


/-! ## Key-iterator matching lemmas (C2, C5) -/

/-- Unfolding equation for `key_iter_match`. -/
theorem key_iter_match_eq (isAkey : Bool) (cond : Option Nat)
    (epr : EpochRange) (t : DkEnt) :
    key_iter_match isAkey cond epr t =
      (if t.krec.earliest > epr.hi then .PROBE DAOS_EPOCH_MAX
       else if (if t.krec.punched then t.krec.latest else DAOS_EPOCH_MAX)
           ≤ epr.lo then .PROBE epr.lo
       else match cond with
         | none => .NOOP
         | some ak =>
           if isAkey then .NOOP
           else if epr.lo ≠ epr.hi then .ERR .INVAL
           else match krecPrepare
               (if t.krec.punched then t.krec.latest else DAOS_EPOCH_MAX)
               t.krec with
             | .error er => .ERR er
             | .ok sub =>
               if akeyExistsAt sub ak epr.lo then .NOOP
               else .NEXT) := rfl

/-- An accepted (`IT_OPC_NOOP`) entry passed both epoch-range checks of
`key_iter_match`. -/
theorem key_iter_match_noop {isAkey : Bool} {cond : Option Nat}
    {epr : EpochRange} {t : DkEnt}
    (h : key_iter_match isAkey cond epr t = .NOOP) : keyMatches epr t := by
  rw [key_iter_match_eq] at h
  by_cases h1 : t.krec.earliest > epr.hi
  · rw [if_pos h1] at h
    cases h
  · rw [if_neg h1] at h
    by_cases h2 : (if t.krec.punched then t.krec.latest else DAOS_EPOCH_MAX)
        ≤ epr.lo
    · rw [if_pos h2] at h
      cases h
    · exact ⟨le_of_not_lt h1, lt_of_not_le h2⟩

/-- Soundness of the `key_iter_match_probe` loop: a yielded entry satisfies
the accept predicate. -/
theorem key_iter_match_probe_ok (isAkey : Bool) (cond : Option Nat)
    (epr : EpochRange) :
    ∀ (fuel : Nat) (l : List DkEnt) (r : DkEnt),
      key_iter_match_probe isAkey cond epr fuel l = some (.ok r) →
      keyMatches epr r := by
  intro fuel
  induction fuel with
  | zero =>
    intro l r h
    simp [key_iter_match_probe] at h
  | succ n ih =>
    intro l r h
    cases l with
    | nil =>
      rw [key_iter_match_probe] at h
      cases h
    | cons cur rest =>
      rw [key_iter_match_probe] at h
      cases hm : key_iter_match isAkey cond epr cur with
      | NOOP =>
        rw [hm] at h
        cases h
        exact key_iter_match_noop hm
      | NEXT =>
        rw [hm] at h
        exact ih rest r h
      | PROBE pe =>
        rw [hm] at h
        exact ih _ r h
      | ERR er =>
        rw [hm] at h
        cases h

/-- C2: `key_iter_match` re-probes `GT` at `DAOS_EPOCH_MAX` when the entry
was created after `epr.hi`, re-probes `GT` at `epr.lo` when the entry's
reported epoch (`kr_latest` for a punched key, else `DAOS_EPOCH_MAX`) is
`≤ epr.lo`, and otherwise accepts, so every entry the probe/next loop
yields satisfies `earliest ≤ epr.hi` and is not punched at or before
`epr.lo`. -/
theorem claim_C2_key_iter_matching :
    (∀ (isAkey : Bool) (cond : Option Nat) (epr : EpochRange) (t : DkEnt),
        epr.hi < t.krec.earliest →
        key_iter_match isAkey cond epr t = .PROBE DAOS_EPOCH_MAX) ∧
    (∀ (isAkey : Bool) (cond : Option Nat) (epr : EpochRange) (t : DkEnt),
        t.krec.earliest ≤ epr.hi →
        (if t.krec.punched then t.krec.latest else DAOS_EPOCH_MAX) ≤ epr.lo →
        key_iter_match isAkey cond epr t = .PROBE epr.lo) ∧
    (∀ (isAkey : Bool) (epr : EpochRange) (t : DkEnt),
        keyMatches epr t → key_iter_match isAkey none epr t = .NOOP) ∧
    (∀ (isAkey : Bool) (cond : Option Nat) (epr : EpochRange) (fuel : Nat)
        (l : List DkEnt) (r : DkEnt),
        key_iter_match_probe isAkey cond epr fuel l = some (.ok r) →
        keyMatches epr r) := by
  refine ⟨?_, ?_, ?_, ?_⟩
  · intro isAkey cond epr t h
    rw [key_iter_match_eq, if_pos h]
  · intro isAkey cond epr t h1 h2
    rw [key_iter_match_eq, if_neg (not_lt_of_le h1), if_pos h2]
  · intro isAkey epr t hm
    rw [key_iter_match_eq, if_neg (not_lt_of_le hm.1),
        if_neg (not_le_of_lt hm.2)]
  · intro isAkey cond epr fuel l r h
    exact key_iter_match_probe_ok isAkey cond epr fuel l r h

/-- Witness for C2 on a two-record tree: the loop skips a record punched at
epoch 3 (reported epoch ≤ epr.lo = 4) and yields the live record, which
satisfies the accept predicate. -/
theorem claim_C2_witness :
    key_iter_match true none ⟨0, 1⟩ ⟨7, 0, ⟨2, 4, false, []⟩⟩ =
      .PROBE DAOS_EPOCH_MAX ∧
    keyMatches ⟨4, 9⟩ (⟨8, 0, ⟨2, 5, false, []⟩⟩ : DkEnt) :=
  ⟨claim_C2_key_iter_matching.1 true none ⟨0, 1⟩ ⟨7, 0, ⟨2, 4, false, []⟩⟩
     (by decide),
   claim_C2_key_iter_matching.2.2.2 true none ⟨4, 9⟩ 3
     [⟨7, 3, ⟨2, 3, true, []⟩⟩, ⟨8, 0, ⟨2, 5, false, []⟩⟩]
     ⟨8, 0, ⟨2, 5, false, []⟩⟩ (by rfl)⟩

/-- C5 counterexample: a dkey punched at epoch 10 still passes the range
filter for a reader at the exact condition epoch 5 (`5 < 10`), and akey 9
visibly exists beneath it at epoch 5; yet `key_iter_match` propagates
`NONEXIST` from loading the akey subtree at the entry's reported epoch 10
(the record is a visible tombstone there) and aborts the probe instead of
accepting the dkey as the claim's "if and only if" demands. -/
theorem claim_C5_counterexample :
    key_iter_match false (some 9) ⟨5, 5⟩
      ⟨1, 0, ⟨2, 10, true, [⟨9, 0, ⟨1, 2, false, [2]⟩⟩]⟩⟩ =
      .ERR .NONEXIST ∧
    akeyExistsAt [⟨9, 0, ⟨1, 2, false, [2]⟩⟩] 9 5 = true ∧
    keyMatches ⟨5, 5⟩
      (⟨1, 0, ⟨2, 10, true, [⟨9, 0, ⟨1, 2, false, [2]⟩⟩]⟩⟩ : DkEnt) ∧
    key_iter_match false (some 9) ⟨5, 5⟩
      ⟨1, 0, ⟨2, 10, true, [⟨9, 0, ⟨1, 2, false, [2]⟩⟩]⟩⟩ ≠ .NOOP :=
  ⟨rfl, rfl, by decide, by decide⟩

/-- C5 (amended): with a conditional akey on a dkey iterator, an
epoch-visible dkey entry whose record is not punched is accepted iff the
named akey exists (visibly) under it at the exact condition epoch
`epr.lo = epr.hi`; an epoch-visible dkey whose record is punched aborts the
conditional probe with `NONEXIST` (loading its akey subtree at the reported
epoch fails on the visible tombstone); a proper epoch range makes the
conditional iteration fail with `INVAL`. -/
theorem claim_C5_conditional_akey :
    (∀ (ak : Nat) (epr : EpochRange) (t : DkEnt),
        keyMatches epr t → epr.lo ≠ epr.hi →
        key_iter_match false (some ak) epr t = .ERR .INVAL) ∧
    (∀ (ak : Nat) (epr : EpochRange) (t : DkEnt),
        keyMatches epr t → epr.lo = epr.hi → t.krec.punched = false →
        (key_iter_match false (some ak) epr t = .NOOP ↔
          akeyExistsAt t.krec.subtree ak epr.lo = true) ∧
        (key_iter_match false (some ak) epr t = .NEXT ↔
          akeyExistsAt t.krec.subtree ak epr.lo = false)) ∧
    (∀ (ak : Nat) (epr : EpochRange) (t : DkEnt),
        keyMatches epr t → epr.lo = epr.hi → t.krec.punched = true →
        key_iter_match false (some ak) epr t = .ERR .NONEXIST) := by
  refine ⟨?_, ?_, ?_⟩
  · intro ak epr t hm hne
    rw [key_iter_match_eq, if_neg (not_lt_of_le hm.1),
        if_neg (not_le_of_lt hm.2)]
    simp only [if_neg (Bool.false_ne_true), if_pos hne]
  · intro ak epr t hm heq hp
    have hprep : krecPrepare
        (if t.krec.punched then t.krec.latest else DAOS_EPOCH_MAX) t.krec =
        .ok t.krec.subtree := by
      simp [krecPrepare, hp]
    rw [key_iter_match_eq, if_neg (not_lt_of_le hm.1),
        if_neg (not_le_of_lt hm.2)]
    simp only [Bool.false_eq_true, if_false, ne_eq, heq, not_true_eq_false,
               if_neg (not_not_intro heq), hprep]
    cases hex : akeyExistsAt t.krec.subtree ak epr.lo with
    | true => simp
    | false => simp
  · intro ak epr t hm heq hp
    have hprep : krecPrepare
        (if t.krec.punched then t.krec.latest else DAOS_EPOCH_MAX) t.krec =
        .error .NONEXIST := by
      simp [krecPrepare, hp]
    rw [key_iter_match_eq, if_neg (not_lt_of_le hm.1),
        if_neg (not_le_of_lt hm.2)]
    simp only [Bool.false_eq_true, if_false, ne_eq, heq, not_true_eq_false,
               if_neg (not_not_intro heq), hprep]


/-! ## Key-tree lookup lemmas (C1) -/

theorem lookupKey_cons {α : Type} (t : TreeEnt α) (l : List (TreeEnt α))
    (k : Nat) :
    lookupKey (t :: l) k =
      if (t.key == k) = true then some t.krec else lookupKey l k := by
  unfold lookupKey
  rw [List.find?_cons]
  cases h : (t.key == k) with
  | true => simp
  | false => simp

/-- A successful lookup exhibits a member entry with that key. -/
theorem lookupKey_mem {α : Type} {l : List (TreeEnt α)} {k : Nat}
    {r : KeyRec α} (h : lookupKey l k = some r) :
    ∃ t ∈ l, t.key = k ∧ t.krec = r := by
  unfold lookupKey at h
  cases hf : l.find? (fun t => t.key == k) with
  | none =>
    rw [hf] at h
    cases h
  | some t0 =>
    rw [hf] at h
    refine ⟨t0, List.mem_of_find?_eq_some hf, ?_, by simpa using h⟩
    have := List.find?_some hf
    simpa using this

/-- A successful lookup makes `any` with the same key true. -/
theorem lookupKey_any {α : Type} {l : List (TreeEnt α)} {k : Nat}
    {r : KeyRec α} (h : lookupKey l k = some r) :
    l.any (fun t => t.key == k) = true := by
  obtain ⟨t0, hmem, hkey, -⟩ := lookupKey_mem h
  exact List.any_eq_true.mpr ⟨t0, hmem, by simpa using hkey⟩

/-- A failed lookup means no entry has that key. -/
theorem lookupKey_none {α : Type} {l : List (TreeEnt α)} {k : Nat}
    (h : lookupKey l k = none) : ∀ t ∈ l, (t.key == k) = false := by
  intro t hmem
  unfold lookupKey at h
  cases hf : l.find? (fun t => t.key == k) with
  | none =>
    have := List.find?_eq_none.mp hf t hmem
    simpa using this
  | some t0 =>
    rw [hf] at h
    cases h

/-- Lookup of the punched key in the update map of `keyTreePunch`. -/
theorem lookupKey_punchMap {α : Type} (e : Epoch) (k : Nat)
    (l : List (TreeEnt α)) :
    lookupKey (l.map (fun t =>
      if t.key == k then
        { t with krec := { t.krec with
                           punched := true
                           latest := max t.krec.latest e } }
      else t)) k
    = (lookupKey l k).map (fun r =>
        { r with punched := true, latest := max r.latest e }) := by
  induction l with
  | nil => rfl
  | cons t rest ih =>
    rw [List.map_cons]
    by_cases hkp : (t.key == k) = true
    · rw [if_pos hkp, lookupKey_cons]
      dsimp only
      rw [if_pos hkp, lookupKey_cons, if_pos hkp]
      rfl
    · rw [if_neg hkp, lookupKey_cons, if_neg hkp, lookupKey_cons, if_neg hkp]
      exact ih

/-- Lookup of a different key in the update map of `keyTreePunch`. -/
theorem lookupKey_punchMap_ne {α : Type} (e : Epoch) (k k2 : Nat)
    (hne : k2 ≠ k) (l : List (TreeEnt α)) :
    lookupKey (l.map (fun t =>
      if t.key == k then
        { t with krec := { t.krec with
                           punched := true
                           latest := max t.krec.latest e } }
      else t)) k2
    = lookupKey l k2 := by
  induction l with
  | nil => rfl
  | cons t rest ih =>
    rw [List.map_cons]
    by_cases hkp : (t.key == k) = true
    · have hk2 : ¬ (t.key == k2) = true := by
        have ht : t.key = k := by simpa using hkp
        simp [ht, Ne.symm hne]
      rw [if_pos hkp, lookupKey_cons]
      dsimp only
      rw [if_neg hk2, lookupKey_cons, if_neg hk2]
      exact ih
    · by_cases hk2 : (t.key == k2) = true
      · rw [if_neg hkp, lookupKey_cons, if_pos hk2, lookupKey_cons, if_pos hk2]
      · rw [if_neg hkp, lookupKey_cons, if_neg hk2, lookupKey_cons, if_neg hk2]
        exact ih

/-- Here `key_tree_punch` of an existing key: the record keeps its subtree and
earliest epoch, gains `PUNCHED`, and its latest epoch advances to the punch
epoch. -/
theorem lookupKey_punch_self {α : Type} (e : Epoch) (k : Nat) (empty : α)
    (l : List (TreeEnt α)) (r : KeyRec α) (hlk : lookupKey l k = some r) :
    lookupKey (keyTreePunch e k empty l) k =
      some ⟨r.earliest, max r.latest e, true, r.subtree⟩ := by
  unfold keyTreePunch
  rw [if_pos (lookupKey_any hlk), lookupKey_punchMap, hlk]
  rfl

/-- Here `key_tree_punch` of a missing key inserts a fresh tombstone. -/
theorem lookupKey_punch_absent {α : Type} (e : Epoch) (k : Nat) (empty : α)
    (l : List (TreeEnt α)) (hlk : lookupKey l k = none) :
    lookupKey (keyTreePunch e k empty l) k = some ⟨e, e, true, empty⟩ := by
  unfold keyTreePunch
  have hany : l.any (fun t => t.key == k) = false := by
    cases ha : l.any (fun t => t.key == k) with
    | false => rfl
    | true =>
      obtain ⟨t0, hmem, hk⟩ := List.any_eq_true.mp ha
      exact absurd (lookupKey_none hlk t0 hmem) (by simp [hk])
  rw [if_neg (by simp [hany])]
  unfold lookupKey
  rw [List.find?_append]
  have hnone : l.find? (fun t => t.key == k) = none := by
    rw [List.find?_eq_none]
    intro t hmem hk
    exact absurd (lookupKey_none hlk t hmem) (by simp [hk])
  simp [hnone]

/-- Here `key_tree_punch` leaves every other key's record untouched. -/
theorem lookupKey_punch_ne {α : Type} (e : Epoch) (k k2 : Nat) (hne : k2 ≠ k)
    (empty : α) (l : List (TreeEnt α)) :
    lookupKey (keyTreePunch e k empty l) k2 = lookupKey l k2 := by
  unfold keyTreePunch
  by_cases hany : l.any (fun t => t.key == k) = true
  · rw [if_pos hany]
    exact lookupKey_punchMap_ne e k k2 hne l
  · rw [if_neg hany]
    unfold lookupKey
    rw [List.find?_append]
    cases hf : l.find? (fun t => t.key == k2) with
    | none =>
      have hnk : ((⟨k, e, ⟨e, e, true, empty⟩⟩ : TreeEnt α).key == k2)
          = false := by
        simp [Ne.symm hne]
      simp [hf, hnk]
    | some v => simp [hf]

/-- After punching key `k`, every record of `k` is a tombstone no newer than
the punch epoch (assuming the punch epoch is no older than any prior
activity on the key). -/
theorem keyTreePunch_entries {α : Type} (e : Epoch) (k : Nat) (empty : α)
    (l : List (TreeEnt α))
    (hAll : ∀ ent ∈ l, ent.key = k → ent.krec.latest ≤ e) :
    ∀ ent ∈ keyTreePunch e k empty l, ent.key = k →
      ent.krec.punched = true ∧ ent.krec.latest ≤ e := by
  intro ent hmem hkey
  unfold keyTreePunch at hmem
  by_cases hany : l.any (fun t => t.key == k) = true
  · rw [if_pos hany] at hmem
    obtain ⟨ent0, hm0, rfl⟩ := List.mem_map.mp hmem
    by_cases hk0 : (ent0.key == k) = true
    · rw [if_pos hk0]
      have h0 : ent0.key = k := by simpa using hk0
      exact ⟨rfl, max_le (hAll ent0 hm0 h0) le_rfl⟩
    · rw [if_neg hk0] at hkey ⊢
      exact absurd hkey (by simpa using hk0)
  · rw [if_neg hany] at hmem
    rcases List.mem_append.mp hmem with hml | hnew
    · exfalso
      have : (ent.key == k) = true := by simpa using hkey
      exact hany (List.any_eq_true.mpr ⟨ent, hml, this⟩)
    · have : ent = ⟨k, e, ⟨e, e, true, empty⟩⟩ := by simpa using hnew
      rw [this]
      exact ⟨rfl, le_rfl⟩

/-- Membership in the visible-key listing. -/
theorem mem_visibleKeys {α : Type} {epr : EpochRange} {l : List (TreeEnt α)}
    {k : Nat} :
    k ∈ visibleKeys epr l ↔ ∃ t ∈ l, t.key = k ∧ keyMatches epr t := by
  unfold visibleKeys
  constructor
  · intro h
    obtain ⟨t, htf, hk⟩ := List.mem_map.mp h
    have := List.mem_filter.mp htf
    exact ⟨t, this.1, hk, of_decide_eq_true this.2⟩
  · rintro ⟨t, hmem, hk, hmatch⟩
    exact List.mem_map.mpr ⟨t,
      List.mem_filter.mpr ⟨hmem, decide_eq_true hmatch⟩, hk⟩

/-- Lookup after `updateSubtree` of the same key. -/
theorem lookupKey_updateSubtree (dk : Nat) (f : List AkEnt → List AkEnt)
    (l : List DkEnt) :
    lookupKey (updateSubtree dk f l) dk =
      (lookupKey l dk).map (fun r => { r with subtree := f r.subtree }) := by
  unfold updateSubtree
  induction l with
  | nil => rfl
  | cons t rest ih =>
    rw [List.map_cons]
    by_cases hkp : (t.key == dk) = true
    · rw [if_pos hkp, lookupKey_cons]
      dsimp only
      rw [if_pos hkp, lookupKey_cons, if_pos hkp]
      rfl
    · rw [if_neg hkp, lookupKey_cons, if_neg hkp, lookupKey_cons, if_neg hkp]
      exact ih


/-! ## Punch of an akey list (C1) -/

/-- A tombstone record whose latest epoch already absorbs the punch epoch is
a fixed point of further punches in an akey-list fold. -/
theorem lookupKey_punchList_preserved (e : Epoch) :
    ∀ (aks : List Nat) (a : Nat) (sub : List AkEnt) (v : KeyRec ValT),
      lookupKey sub a = some v → v.punched = true → max v.latest e = v.latest →
      lookupKey (aks.foldl (fun s x => keyTreePunch e x [] s) sub) a =
        some v := by
  intro aks
  induction aks with
  | nil =>
    intro a sub v hlk _ _
    exact hlk
  | cons b rest ih =>
    intro a sub v hlk hp hmax
    rw [List.foldl_cons]
    by_cases hab : a = b
    · subst hab
      have h1 : lookupKey (keyTreePunch e a ([] : ValT) sub) a =
          some ⟨v.earliest, max v.latest e, true, v.subtree⟩ :=
        lookupKey_punch_self e a [] sub v hlk
      rw [hmax] at h1
      have hv : (⟨v.earliest, v.latest, true, v.subtree⟩ : KeyRec ValT)
          = v := by
        cases v with
        | mk ea la pu su =>
          cases hp
          rfl
      rw [hv] at h1
      exact ih a _ v h1 hp hmax
    · have h1 : lookupKey (keyTreePunch e b ([] : ValT) sub) a = some v := by
        rw [lookupKey_punch_ne e b a hab [] sub]
        exact hlk
      exact ih a _ v h1 hp hmax

/-- Punching an akey list turns each listed akey's record into a tombstone
whose latest epoch absorbs the punch epoch, keeping its value subtree. -/
theorem lookupKey_punchList_mem (e : Epoch) :
    ∀ (aks : List Nat) (a : Nat) (sub : List AkEnt) (ra : KeyRec ValT),
      a ∈ aks → lookupKey sub a = some ra →
      lookupKey (aks.foldl (fun s x => keyTreePunch e x [] s) sub) a =
        some ⟨ra.earliest, max ra.latest e, true, ra.subtree⟩ := by
  intro aks
  induction aks with
  | nil =>
    intro a sub ra hmem
    cases hmem
  | cons b rest ih =>
    intro a sub ra hmem hlk
    rw [List.foldl_cons]
    by_cases hab : a = b
    · subst hab
      have h1 : lookupKey (keyTreePunch e a ([] : ValT) sub) a =
          some ⟨ra.earliest, max ra.latest e, true, ra.subtree⟩ :=
        lookupKey_punch_self e a [] sub ra hlk
      exact lookupKey_punchList_preserved e rest a _ _ h1 rfl
        (by rw [max_assoc, max_self])
    · have hmem2 : a ∈ rest := by
        rcases List.mem_cons.mp hmem with h | h
        · exact absurd h hab
        · exact h
      have h1 : lookupKey (keyTreePunch e b ([] : ValT) sub) a = some ra := by
        rw [lookupKey_punch_ne e b a hab [] sub]
        exact hlk
      exact ih a _ ra hmem2 h1

/-! ## `keyTreePrepare` case lemmas (C1, C10) -/

/-- Here `keyTreePrepare` yields `NONEXIST` on a present key exactly when the
record is a tombstone at or below the given epoch. -/
theorem keyTreePrepare_nonexist {e : Epoch} {k : Nat} {l : List DkEnt}
    {r : KeyRec (List AkEnt)} (hlk : lookupKey l k = some r)
    (h : keyTreePrepare e k l = .error .NONEXIST) :
    r.punched = true ∧ r.latest ≤ e := by
  unfold keyTreePrepare at h
  rw [hlk] at h
  dsimp only at h
  by_cases hc : (r.punched && decide (r.latest ≤ e)) = true
  · have := Bool.and_eq_true_iff.mp hc
    exact ⟨this.1, of_decide_eq_true this.2⟩
  · rw [if_neg hc] at h
    cases h

/-- Here `keyTreePrepare` of a present key either reports `NONEXIST` or returns
the tree unchanged. -/
theorem keyTreePrepare_present {e : Epoch} {k : Nat} {l : List DkEnt}
    {r : KeyRec (List AkEnt)} (hlk : lookupKey l k = some r) :
    keyTreePrepare e k l = .error .NONEXIST ∨ keyTreePrepare e k l = .ok l := by
  unfold keyTreePrepare
  rw [hlk]
  dsimp only
  by_cases hc : (r.punched && decide (r.latest ≤ e)) = true
  · rw [if_pos hc]
    exact .inl rfl
  · rw [if_neg hc]
    exact .inr rfl

/-- Here `key_punch` always reports success in this model (its only internal
failure, `NONEXIST` from preparing the dkey, is swallowed). -/
theorem key_punch_ok (e : Epoch) (t : List DkEnt) (dk : Nat)
    (aks : List Nat) : ∃ t2, key_punch e t dk aks = (.ok (), t2) := by
  unfold key_punch
  cases aks with
  | nil => exact ⟨_, rfl⟩
  | cons a rest =>
    unfold keyTreePrepare
    cases hlk : lookupKey t dk with
    | none => exact ⟨_, rfl⟩
    | some r =>
      dsimp only
      by_cases hc : (r.punched && decide (r.latest ≤ e)) = true
      · rw [if_pos hc]
        exact ⟨t, rfl⟩
      · rw [if_neg hc]
        exact ⟨_, rfl⟩


/-- C1: punching a dkey (or an akey list) through `vos_obj_punch` hides
every akey/single-value/extent beneath the punched key from every reader
and iterator at epochs `≥` the punch epoch, without mutating the descendant
entries: (1) `vos_obj_punch` with a dkey succeeds and rewrites exactly the
object's dkey tree through `key_punch`; (2) a dkey punch makes the dkey
invisible to the key iterator, makes the nested akey-tree load report
`NONEXIST`, hides every value fetch beneath it, and leaves its akey subtree
and all other keys' records byte-identical; (3) an akey-list punch hides
every value fetch beneath each listed akey at `E ≥ e` while preserving each
akey's value subtree. -/
theorem claim_C1_punch_subsumes_descendants :
    (∀ (st : VosState) (oid : Nat) (obj : ObjRec) (e : Epoch) (dk : Nat)
        (aks : List Nat), st.lookup oid = some obj →
        (vos_obj_punch st oid e (some dk) aks).1 = .ok () ∧
        objTree (vos_obj_punch st oid e (some dk) aks).2 oid =
          (key_punch e obj.tree dk aks).2) ∧
    (∀ (t : List DkEnt) (dk : Nat) (r : KeyRec (List AkEnt)) (e : Epoch),
        lookupKey t dk = some r →
        (∀ ent ∈ t, ent.key = dk → ent.krec.latest ≤ e) →
        (∀ epr : EpochRange, e ≤ epr.lo →
            dk ∉ visibleKeys epr (key_punch e t dk []).2) ∧
        (∀ epr : EpochRange, e ≤ epr.lo →
            akeyIterPrepare epr (key_punch e t dk []).2 dk =
              .error .NONEXIST) ∧
        (∀ E : Epoch, e ≤ E → ∀ ak,
            fetchValues E (key_punch e t dk []).2 dk ak = none) ∧
        (lookupKey (key_punch e t dk []).2 dk).map (fun r2 => r2.subtree) =
          some r.subtree ∧
        (∀ k2, k2 ≠ dk →
            lookupKey (key_punch e t dk []).2 k2 = lookupKey t k2)) ∧
    (∀ (t : List DkEnt) (dk : Nat) (r : KeyRec (List AkEnt)) (e : Epoch)
        (aks : List Nat) (a : Nat) (ra : KeyRec ValT),
        lookupKey t dk = some r → a ∈ aks →
        lookupKey r.subtree a = some ra → ra.latest ≤ e →
        (∀ E : Epoch, e ≤ E →
            fetchValues E (key_punch e t dk aks).2 dk a = none) ∧
        (lookupKey (key_punch e t dk aks).2 dk).map (fun r2 =>
            (lookupKey r2.subtree a).map (fun ra2 => ra2.subtree)) =
          some (some ra.subtree)) := by
  refine ⟨?_, ?_, ?_⟩
  · -- (1) the vos_obj_punch bridge
    intro st oid obj e dk aks hlk
    obtain ⟨t2, ht2⟩ := key_punch_ok e obj.tree dk aks
    have hout : vos_obj_punch st oid e (some dk) aks =
        (.ok (), VosState.setObj { st with
           cache := if oid ∈ st.cache then st.cache
                    else oid :: st.cache } oid { obj with tree := t2 }) := by
      unfold vos_obj_punch holdCreate
      rw [hlk]
      dsimp only
      rw [ht2]
    rw [hout, ht2]
    refine ⟨rfl, ?_⟩
    unfold objTree
    rw [VosState.lookup_setObj_self]
    rfl
  · -- (2) the dkey-punch case
    intro t dk r e hlk hAll
    have hkp : (key_punch e t dk []).2 = keyTreePunch e dk [] t := rfl
    have hrle : r.latest ≤ e := by
      obtain ⟨ent0, hm0, hk0, hr0⟩ := lookupKey_mem hlk
      rw [show r = ent0.krec from hr0.symm]
      exact hAll ent0 hm0 hk0
    have hself := lookupKey_punch_self e dk [] t r hlk
    refine ⟨?_, ?_, ?_, ?_, ?_⟩
    · intro epr hlo hmem
      rw [hkp] at hmem
      obtain ⟨ent, hent, hkey, hmatch⟩ := mem_visibleKeys.mp hmem
      obtain ⟨hp, hle⟩ := keyTreePunch_entries e dk [] t hAll ent hent hkey
      have hlt : epr.lo < ent.krec.latest := by
        have h2 := hmatch.2
        rw [hp] at h2
        simpa using h2
      exact absurd hlt (not_lt_of_le (le_trans hle hlo))
    · intro epr hlo
      rw [hkp]
      unfold akeyIterPrepare
      rw [hself]
      dsimp only
      have hvis : recVisibleAt
          (⟨r.earliest, max r.latest e, true, r.subtree⟩ :
            KeyRec (List AkEnt)) epr.lo = false := by
        have h1 : max r.latest e ≤ epr.lo :=
          le_trans (max_le hrle le_rfl) hlo
        simp [recVisibleAt, h1]
      rw [hvis]
      rfl
    · intro E hE ak
      rw [hkp]
      unfold fetchValues
      rw [hself]
      dsimp only
      have hvis : recVisibleAt
          (⟨r.earliest, max r.latest e, true, r.subtree⟩ :
            KeyRec (List AkEnt)) E = false := by
        have h1 : max r.latest e ≤ E := le_trans (max_le hrle le_rfl) hE
        simp [recVisibleAt, h1]
      rw [hvis]
      rfl
    · rw [hkp, hself]
      rfl
    · intro k2 hk2
      rw [hkp]
      exact lookupKey_punch_ne e dk k2 hk2 [] t
  · -- (3) the akey-list-punch case
    intro t dk r e aks a ra hlk hmem hra hrale
    obtain ⟨b, rest, rfl⟩ : ∃ b rest, aks = b :: rest := by
      cases aks with
      | nil => cases hmem
      | cons b rest => exact ⟨b, rest, rfl⟩
    rcases keyTreePrepare_present (e := e) hlk with hP | hP
    · -- the dkey is already a visible tombstone: nothing changes, and the
      -- tombstone itself hides every descendant
      have hkp2 : (key_punch e t dk (b :: rest)).2 = t := by
        unfold key_punch
        rw [hP]
      obtain ⟨hp, hle⟩ := keyTreePrepare_nonexist hlk hP
      constructor
      · intro E hE
        rw [hkp2]
        unfold fetchValues
        rw [hlk]
        dsimp only
        have hvis : recVisibleAt r E = false := by
          have h1 : r.latest ≤ E := le_trans hle hE
          simp [recVisibleAt, hp, h1]
        rw [hvis]
        rfl
      · rw [hkp2, hlk]
        simp only [Option.map_some']
        rw [hra]
        simp only [Option.map_some']
    · -- the dkey subtree is live: each listed akey becomes a tombstone
      have hkp2 : (key_punch e t dk (b :: rest)).2 =
          updateSubtree dk (fun sub => (b :: rest).foldl
            (fun s x => keyTreePunch e x [] s) sub) t := by
        unfold key_punch
        rw [hP]
      have hfold := lookupKey_punchList_mem e (b :: rest) a r.subtree ra
        hmem hra
      constructor
      · intro E hE
        rw [hkp2]
        unfold fetchValues
        rw [lookupKey_updateSubtree, hlk]
        simp only [Option.map_some']
        have hrv : recVisibleAt
            (⟨r.earliest, r.latest, r.punched,
              (b :: rest).foldl (fun s x => keyTreePunch e x [] s)
                r.subtree⟩ : KeyRec (List AkEnt)) E
            = recVisibleAt r E := rfl
        by_cases hv : recVisibleAt r E = true
        · rw [hrv, if_pos hv, hfold]
          dsimp only
          have hvisA : recVisibleAt
              (⟨ra.earliest, max ra.latest e, true, ra.subtree⟩ :
                KeyRec ValT) E = false := by
            have h1 : max ra.latest e ≤ E := le_trans (max_le hrale le_rfl) hE
            simp [recVisibleAt, h1]
          rw [hvisA]
          rfl
        · rw [hrv, if_neg hv]
      · rw [hkp2, lookupKey_updateSubtree, hlk]
        simp only [Option.map_some']
        rw [hfold]
        simp only [Option.map_some']


/-- Witness for C1: a one-object store whose dkey 2 holds akey 7 with
values; punching dkey 2 (or akey 7 under it) at epoch 4 hides everything
below for a reader at epoch 5. -/
theorem claim_C1_witness :
    ((vos_obj_punch ⟨[(1, ⟨0, none,
        [⟨2, 0, ⟨1, 3, false, [⟨7, 0, ⟨1, 2, false, [1, 2]⟩⟩]⟩⟩]⟩)], []⟩
        1 4 (some 2) []).1 = .ok ()) ∧
    (2 ∉ visibleKeys ⟨5, 9⟩
      (key_punch 4 [⟨2, 0, ⟨1, 3, false, [⟨7, 0, ⟨1, 2, false, [1, 2]⟩⟩]⟩⟩]
        2 []).2) ∧
    (fetchValues 5
      (key_punch 4 [⟨2, 0, ⟨1, 3, false, [⟨7, 0, ⟨1, 2, false, [1, 2]⟩⟩]⟩⟩]
        2 [7]).2 2 7 = none) :=
  ⟨(claim_C1_punch_subsumes_descendants.1
      ⟨[(1, ⟨0, none,
         [⟨2, 0, ⟨1, 3, false, [⟨7, 0, ⟨1, 2, false, [1, 2]⟩⟩]⟩⟩]⟩)], []⟩
      1 ⟨0, none, [⟨2, 0, ⟨1, 3, false, [⟨7, 0, ⟨1, 2, false, [1, 2]⟩⟩]⟩⟩]⟩
      4 2 [] (by rfl)).1,
   (claim_C1_punch_subsumes_descendants.2.1
      [⟨2, 0, ⟨1, 3, false, [⟨7, 0, ⟨1, 2, false, [1, 2]⟩⟩]⟩⟩] 2
      ⟨1, 3, false, [⟨7, 0, ⟨1, 2, false, [1, 2]⟩⟩]⟩ 4 (by rfl)
      (by decide)).1 ⟨5, 9⟩ (by decide),
   (claim_C1_punch_subsumes_descendants.2.2
      [⟨2, 0, ⟨1, 3, false, [⟨7, 0, ⟨1, 2, false, [1, 2]⟩⟩]⟩⟩] 2
      ⟨1, 3, false, [⟨7, 0, ⟨1, 2, false, [1, 2]⟩⟩]⟩ 4 [7] 7
      ⟨1, 2, false, [1, 2]⟩ (by rfl) (by decide) (by rfl) (by decide)).1
      5 (by decide)⟩


/-- Witness for C5: conditional iteration over a proper epoch range fails
`INVAL`; at the exact epoch 5 an unpunched dkey is accepted because akey 9
exists beneath it; a punched dkey aborts with `NONEXIST`. -/
theorem claim_C5_witness :
    key_iter_match false (some 9) ⟨3, 5⟩ ⟨1, 0, ⟨2, 4, false, []⟩⟩ =
      .ERR .INVAL ∧
    key_iter_match false (some 9) ⟨5, 5⟩
      ⟨1, 0, ⟨2, 4, false, [⟨9, 0, ⟨1, 2, false, [2]⟩⟩]⟩⟩ = .NOOP ∧
    key_iter_match false (some 9) ⟨5, 5⟩
      ⟨1, 0, ⟨2, 12, true, [⟨9, 0, ⟨1, 2, false, [2]⟩⟩]⟩⟩ =
      .ERR .NONEXIST :=
  ⟨claim_C5_conditional_akey.1 9 ⟨3, 5⟩ ⟨1, 0, ⟨2, 4, false, []⟩⟩
     (by decide) (by decide),
   (claim_C5_conditional_akey.2.1 9 ⟨5, 5⟩
     ⟨1, 0, ⟨2, 4, false, [⟨9, 0, ⟨1, 2, false, [2]⟩⟩]⟩⟩
     (by decide) rfl rfl).1.mpr (by rfl),
   claim_C5_conditional_akey.2.2 9 ⟨5, 5⟩
     ⟨1, 0, ⟨2, 12, true, [⟨9, 0, ⟨1, 2, false, [2]⟩⟩]⟩⟩
     (by decide) rfl rfl⟩

end VosObj
